import Mathlib

/-!
Verification of the prisma-engine migration core against its specification.

The development shallowly embeds the schema AST, the migration step
vocabulary, the AST differ (`datamodel_differ.rs`), the SQL migration
connector lifecycle (`sql-migration-connector/src/lib.rs`) and the
`InferMigrationStepsCommand` (`infer_migration_steps.rs`).

Rust AST expressions are embedded by their rendered string form, which is
exactly the information `MigrationExpression::from_ast_expression` retains.
Parts of the repository that are only declared or called from the embedded
files (the differ submodules with the created/deleted/paired partitions,
the step structs with `is_any_option_set`, the quaint connection layer, the
migration persistence and the concrete `SqlMigration` payload) are modelled
from the specification; each such definition carries a doc comment saying
so.
-/

namespace Prisma

/-- AST argument of a directive: a name (empty for a positional argument)
and the rendered form of its value expression. -/
structure Argument where
  name : String
  value : String
deriving DecidableEq

/-- AST directive: a name and an ordered list of arguments. -/
structure Directive where
  name : String
  arguments : List Argument
deriving DecidableEq

/-- Field arity as in `ast::FieldArity`. -/
inductive FieldArity
  | required
  | optional
  | list
deriving DecidableEq

/-- AST field: name, type name, arity and directives. -/
structure Field where
  name : String
  field_type : String
  arity : FieldArity
  directives : List Directive
deriving DecidableEq

/-- AST model: name, owned fields, directives. -/
structure Model where
  name : String
  fields : List Field
  directives : List Directive
deriving DecidableEq

/-- AST enum: name, value names, directives. -/
structure Enum where
  name : String
  values : List String
  directives : List Directive
deriving DecidableEq

/-- A parsed schema: its top-level enum and model declarations. -/
structure SchemaAst where
  enums : List Enum
  models : List Model
deriving DecidableEq

/-- A rendered AST expression, as stored inside migration steps. -/
structure MigrationExpression where
  expr : String
deriving DecidableEq

/-- Modelled from the spec: `MigrationExpression::from_ast_expression`
(steps.rs is not under src); it renders the AST expression to a string,
which is the identity on our rendered-expression embedding. -/
def MigrationExpression.from_ast_expression (value : String) : MigrationExpression :=
  { expr := value }

/-- Location of a directive: on an enum, on a model, or on a field. -/
inductive DirectiveLocation
  | onEnum (enumName : String)
  | onModel (model : String)
  | onField (model : String) (field : String)
deriving DecidableEq

/-- A directive locator: its location plus the directive name. -/
structure DirectiveLocator where
  location : DirectiveLocation
  name : String
deriving DecidableEq

/-- CreateEnum step payload. -/
structure CreateEnum where
  name : String
  values : List String
deriving DecidableEq

/-- DeleteEnum step payload. -/
structure DeleteEnum where
  name : String
deriving DecidableEq

/-- UpdateEnum step payload: absent optional parts mean unchanged. -/
structure UpdateEnum where
  name : String
  new_name : Option String
  created_values : List String
  deleted_values : List String
deriving DecidableEq

/-- Modelled from the spec: `UpdateEnum::is_any_option_set` (steps.rs is not
under src); an Update step records a change when any optional part is set. -/
def UpdateEnum.is_any_option_set (u : UpdateEnum) : Bool :=
  u.new_name.isSome || !u.created_values.isEmpty || !u.deleted_values.isEmpty

/-- CreateModel step payload. -/
structure CreateModel where
  name : String
  embedded : Bool
  db_name : Option String
deriving DecidableEq

/-- DeleteModel step payload. -/
structure DeleteModel where
  name : String
deriving DecidableEq

/-- CreateField step payload. -/
structure CreateField where
  arity : FieldArity
  name : String
  tpe : String
  model : String
  db_name : Option String
  default : Option MigrationExpression
deriving DecidableEq

/-- DeleteField step payload. -/
structure DeleteField where
  model : String
  name : String
deriving DecidableEq

/-- UpdateField step payload: absent optional parts mean unchanged. -/
structure UpdateField where
  arity : Option FieldArity
  new_name : Option String
  model : String
  name : String
  tpe : Option String
  default : Option (Option MigrationExpression)
deriving DecidableEq

/-- Modelled from the spec: `UpdateField::is_any_option_set` (steps.rs is
not under src). -/
def UpdateField.is_any_option_set (u : UpdateField) : Bool :=
  u.arity.isSome || u.new_name.isSome || u.tpe.isSome || u.default.isSome

/-- CreateDirective step payload. -/
structure CreateDirective where
  locator : DirectiveLocator
deriving DecidableEq

/-- DeleteDirective step payload. -/
structure DeleteDirective where
  locator : DirectiveLocator
deriving DecidableEq

/-- CreateDirectiveArgument step payload. -/
structure CreateDirectiveArgument where
  directive_location : DirectiveLocator
  argument_name : String
  argument_value : MigrationExpression
deriving DecidableEq

/-- UpdateDirectiveArgument step payload. -/
structure UpdateDirectiveArgument where
  directive_location : DirectiveLocator
  argument_name : String
  new_argument_value : MigrationExpression
deriving DecidableEq

/-- DeleteDirectiveArgument step payload. -/
structure DeleteDirectiveArgument where
  directive_location : DirectiveLocator
  argument_name : String
deriving DecidableEq

/-- The migration step vocabulary of `migration_connector::steps`. -/
inductive MigrationStep
  | CreateEnum (step : CreateEnum)
  | UpdateEnum (step : UpdateEnum)
  | DeleteEnum (step : DeleteEnum)
  | CreateModel (step : CreateModel)
  | DeleteModel (step : DeleteModel)
  | CreateField (step : CreateField)
  | UpdateField (step : UpdateField)
  | DeleteField (step : DeleteField)
  | CreateDirective (step : CreateDirective)
  | DeleteDirective (step : DeleteDirective)
  | CreateDirectiveArgument (step : CreateDirectiveArgument)
  | UpdateDirectiveArgument (step : UpdateDirectiveArgument)
  | DeleteDirectiveArgument (step : DeleteDirectiveArgument)
deriving DecidableEq

/-! ### The differ submodule partitions

The differ submodules (`top_level.rs`, `models.rs`, `enums.rs`, `fields.rs`,
`directives.rs`) are not under src; only `datamodel_differ.rs`, which calls
them, is. Their created/deleted/paired iterators are therefore modelled
from the spec: declarations are partitioned by exact, case-sensitive name
into created (present only in next), deleted (present only in previous) and
paired (same name on both sides). -/

/-- Modelled from the spec: the created part of the name-keyed partition,
in next-side order. -/
def createdBy {α : Type} (key : α → String) (previous next : List α) : List α :=
  next.filter (fun n => !(previous.any (fun p => key p == key n)))

/-- Modelled from the spec: the deleted part of the name-keyed partition,
in previous-side order. -/
def deletedBy {α : Type} (key : α → String) (previous next : List α) : List α :=
  previous.filter (fun p => !(next.any (fun n => key n == key p)))

/-- Modelled from the spec: the paired part of the name-keyed partition:
each previous item together with the next item carrying the same name. -/
def pairsBy {α : Type} (key : α → String) (previous next : List α) : List (α × α) :=
  previous.filterMap (fun p => (next.find? (fun n => key n == key p)).map (fun n => (p, n)))

/-- Modelled from the spec: the field differ special-cases the `default`
directive, folding it into the owning field step instead of emitting it as
an independent directive step, so its directive iterators skip directives
named default (fields.rs is not under src). -/
def Field.diff_directives (f : Field) : List Directive :=
  f.directives.filter (fun d => d.name != "default")

/-- Modelled from the spec and its call sites: the string value of the
first argument of the named directive (directives.rs is not under src). -/
def get_directive_string_value (name : String) (directives : List Directive) : Option String :=
  (directives.find? (fun d => d.name == name)).bind (fun d => (d.arguments.get? 0).map Argument.value)

/-! ### The AST differ (`datamodel_differ.rs`)

Each `push_*` function of the source mutates a step accumulator; the
embedding turns each into a function returning the list of steps it pushes,
in push order, and the caller concatenates them in call order. -/

/-- The `diff_value` helper: none when unchanged, the new value otherwise. -/
def diff_value {α : Type} [DecidableEq α] (current updated : α) : Option α :=
  if current = updated then none else some updated

/-- Steps pushed by `push_created_directive`. -/
def push_created_directive (location : DirectiveLocation) (directive : Directive) : List MigrationStep :=
  let locator : DirectiveLocator := { location := location, name := directive.name }
  MigrationStep.CreateDirective { locator := locator } ::
    directive.arguments.map (fun argument =>
      MigrationStep.CreateDirectiveArgument
        { directive_location := locator
          argument_name := argument.name
          argument_value := MigrationExpression.from_ast_expression argument.value })

/-- Steps pushed by `push_created_directives`. -/
def push_created_directives (location : DirectiveLocation) (directives : List Directive) : List MigrationStep :=
  directives.flatMap (fun directive => push_created_directive location directive)

/-- Steps pushed by `push_deleted_directive`. -/
def push_deleted_directive (location : DirectiveLocation) (directive : Directive) : List MigrationStep :=
  [MigrationStep.DeleteDirective { locator := { location := location, name := directive.name } }]

/-- Steps pushed by `push_deleted_directives`. -/
def push_deleted_directives (location : DirectiveLocation) (directives : List Directive) : List MigrationStep :=
  directives.flatMap (fun directive => push_deleted_directive location directive)

/-- Steps pushed by `push_created_directive_argument`. -/
def push_created_directive_argument (directive_location : DirectiveLocator) (argument : Argument) : List MigrationStep :=
  [MigrationStep.CreateDirectiveArgument
    { directive_location := directive_location
      argument_name := argument.name
      argument_value := MigrationExpression.from_ast_expression argument.value }]

/-- Steps pushed by `push_updated_directive_argument`: nothing when the
previous and next rendered values are equal. -/
def push_updated_directive_argument (directive_location : DirectiveLocator) (previous_argument next_argument : Argument) : List MigrationStep :=
  let previous_value := MigrationExpression.from_ast_expression previous_argument.value
  let next_value := MigrationExpression.from_ast_expression next_argument.value
  if previous_value = next_value then []
  else
    [MigrationStep.UpdateDirectiveArgument
      { directive_location := directive_location
        argument_name := next_argument.name
        new_argument_value := next_value }]

/-- Steps pushed by `push_deleted_directive_argument`. -/
def push_deleted_directive_argument (directive_location : DirectiveLocator) (argument_name : String) : List MigrationStep :=
  [MigrationStep.DeleteDirectiveArgument
    { directive_location := directive_location, argument_name := argument_name }]

/-- Steps pushed by `push_updated_directive` for one paired directive:
created arguments, then updated arguments, then deleted arguments. -/
def push_updated_directive (location : DirectiveLocation) (previous next : Directive) : List MigrationStep :=
  let locator : DirectiveLocator := { location := location, name := previous.name }
  (createdBy Argument.name previous.arguments next.arguments).flatMap
      (fun argument => push_created_directive_argument locator argument) ++
    (pairsBy Argument.name previous.arguments next.arguments).flatMap
      (fun pr => push_updated_directive_argument locator pr.1 pr.2) ++
    (deletedBy Argument.name previous.arguments next.arguments).flatMap
      (fun argument => push_deleted_directive_argument locator argument.name)

/-- Steps pushed by `push_updated_directives`. -/
def push_updated_directives (location : DirectiveLocation) (pairs : List (Directive × Directive)) : List MigrationStep :=
  pairs.flatMap (fun pr => push_updated_directive location pr.1 pr.2)

/-- The default value folded into field steps: the rendered first argument
of the `default` directive, as in `push_created_fields` and
`push_updated_fields`. -/
def field_default (field : Field) : Option MigrationExpression :=
  ((field.directives.find? (fun directive => directive.name == "default")).bind
      (fun directive => directive.arguments.get? 0)).map
    (fun argument => MigrationExpression.from_ast_expression argument.value)

/-- Steps pushed by `push_created_fields`: for each field a CreateField
step carrying the folded default, followed by created-directive steps for
every directive of the field. -/
def push_created_fields (model_name : String) (fields : List Field) : List MigrationStep :=
  fields.flatMap (fun field =>
    MigrationStep.CreateField
      { arity := field.arity
        name := field.name
        tpe := field.field_type
        model := model_name
        db_name := get_directive_string_value "map" field.directives
        default := field_default field } ::
      push_created_directives (DirectiveLocation.onField model_name field.name) field.directives)

/-- Steps pushed by `push_deleted_fields`. -/
def push_deleted_fields (model_name : String) (fields : List Field) : List MigrationStep :=
  fields.map (fun deleted_field =>
    MigrationStep.DeleteField { model := model_name, name := deleted_field.name })

/-- The UpdateField payload built by `push_updated_fields` for one paired
field: each component is `diff_value` of the previous and next attribute,
the defaults being the folded default-directive arguments. -/
def update_field_step (model_name : String) (previous next : Field) : UpdateField :=
  { arity := diff_value previous.arity next.arity
    new_name := diff_value previous.name next.name
    model := model_name
    name := previous.name
    tpe := diff_value previous.field_type next.field_type
    default := diff_value (field_default previous) (field_default next) }

/-- Steps pushed by `push_updated_fields` for one paired field: the guarded
UpdateField step, then created, updated and deleted directive steps. -/
def push_updated_field (model_name : String) (previous next : Field) : List MigrationStep :=
  let location := DirectiveLocation.onField model_name previous.name
  (if (update_field_step model_name previous next).is_any_option_set
      then [MigrationStep.UpdateField (update_field_step model_name previous next)]
      else []) ++
    push_created_directives location (createdBy Directive.name previous.diff_directives next.diff_directives) ++
    push_updated_directives location (pairsBy Directive.name previous.diff_directives next.diff_directives) ++
    push_deleted_directives location (deletedBy Directive.name previous.diff_directives next.diff_directives)

/-- Steps pushed by `push_updated_fields`. -/
def push_updated_fields (model_name : String) (pairs : List (Field × Field)) : List MigrationStep :=
  pairs.flatMap (fun pr => push_updated_field model_name pr.1 pr.2)

/-- Steps pushed by `push_created_models`: CreateModel, then the created
fields, then the created model-level directives. -/
def push_created_models (models : List Model) : List MigrationStep :=
  models.flatMap (fun created_model =>
    MigrationStep.CreateModel
      { name := created_model.name
        embedded := false
        db_name := get_directive_string_value "map" created_model.directives } ::
      (push_created_fields created_model.name created_model.fields ++
        push_created_directives (DirectiveLocation.onModel created_model.name) created_model.directives))

/-- Steps pushed by `push_deleted_models`. -/
def push_deleted_models (models : List Model) : List MigrationStep :=
  models.map (fun deleted_model => MigrationStep.DeleteModel { name := deleted_model.name })

/-- Steps pushed by `push_updated_models` for one paired model: created
fields, deleted fields, updated fields, then created, updated and deleted
model-level directives, in the call order of the source. -/
def push_updated_model (previous next : Model) : List MigrationStep :=
  let model_name := previous.name
  push_created_fields model_name (createdBy Field.name previous.fields next.fields) ++
    push_deleted_fields model_name (deletedBy Field.name previous.fields next.fields) ++
    push_updated_fields model_name (pairsBy Field.name previous.fields next.fields) ++
    push_created_directives (DirectiveLocation.onModel model_name)
      (createdBy Directive.name previous.directives next.directives) ++
    push_updated_directives (DirectiveLocation.onModel model_name)
      (pairsBy Directive.name previous.directives next.directives) ++
    push_deleted_directives (DirectiveLocation.onModel model_name)
      (deletedBy Directive.name previous.directives next.directives)

/-- Steps pushed by `push_updated_models`. -/
def push_updated_models (pairs : List (Model × Model)) : List MigrationStep :=
  pairs.flatMap (fun pr => push_updated_model pr.1 pr.2)

/-- Steps pushed by `push_created_enums`: CreateEnum, then the created
enum-level directives. -/
def push_created_enums (enums : List Enum) : List MigrationStep :=
  enums.flatMap (fun created_enum =>
    MigrationStep.CreateEnum { name := created_enum.name, values := created_enum.values } ::
      push_created_directives (DirectiveLocation.onEnum created_enum.name) created_enum.directives)

/-- Steps pushed by `push_deleted_enums`. -/
def push_deleted_enums (enums : List Enum) : List MigrationStep :=
  enums.map (fun deleted_enum => MigrationStep.DeleteEnum { name := deleted_enum.name })

/-- The UpdateEnum payload built by `push_updated_enums` for one paired
enum: the created and deleted value lists compare value names across the
pair. -/
def update_enum_step (previous next : Enum) : UpdateEnum :=
  { name := previous.name
    new_name := diff_value previous.name next.name
    created_values := createdBy (fun v => v) previous.values next.values
    deleted_values := deletedBy (fun v => v) previous.values next.values }

/-- Steps pushed by `push_updated_enums` for one paired enum: the guarded
UpdateEnum step, then created, updated and deleted enum-level directives. -/
def push_updated_enum (previous next : Enum) : List MigrationStep :=
  let location := DirectiveLocation.onEnum previous.name
  (if (update_enum_step previous next).is_any_option_set
      then [MigrationStep.UpdateEnum (update_enum_step previous next)]
      else []) ++
    push_created_directives location (createdBy Directive.name previous.directives next.directives) ++
    push_updated_directives location (pairsBy Directive.name previous.directives next.directives) ++
    push_deleted_directives location (deletedBy Directive.name previous.directives next.directives)

/-- Steps pushed by `push_updated_enums`. -/
def push_updated_enums (pairs : List (Enum × Enum)) : List MigrationStep :=
  pairs.flatMap (fun pr => push_updated_enum pr.1 pr.2)

/-- Steps pushed by `push_enums`: created, deleted, then updated enums. -/
def push_enums (previous next : SchemaAst) : List MigrationStep :=
  push_created_enums (createdBy Enum.name previous.enums next.enums) ++
    push_deleted_enums (deletedBy Enum.name previous.enums next.enums) ++
    push_updated_enums (pairsBy Enum.name previous.enums next.enums)

/-- Steps pushed by `push_models`: created, deleted, then updated models. -/
def push_models (previous next : SchemaAst) : List MigrationStep :=
  push_created_models (createdBy Model.name previous.models next.models) ++
    push_deleted_models (deletedBy Model.name previous.models next.models) ++
    push_updated_models (pairsBy Model.name previous.models next.models)

/-- The AST differ entry point: enum steps, then model steps. -/
def diff (previous next : SchemaAst) : List MigrationStep :=
  push_enums previous next ++ push_models previous next

/-! ### Well-formed schemas

Name-keyed partitioning is a genuine partition only when names are unique
within each scope; the well-formedness predicates record this. -/

/-- A directive is well formed when its argument names are unique. -/
def Directive.wf (d : Directive) : Prop :=
  (d.arguments.map Argument.name).Nodup

/-- A field is well formed when its directive names are unique and its
directives are well formed. -/
def Field.wf (f : Field) : Prop :=
  (f.directives.map Directive.name).Nodup ∧ ∀ d ∈ f.directives, d.wf

/-- A model is well formed when its field and directive names are unique
and the fields and directives are themselves well formed. -/
def Model.wf (m : Model) : Prop :=
  (m.fields.map Field.name).Nodup ∧ (∀ f ∈ m.fields, f.wf) ∧
    (m.directives.map Directive.name).Nodup ∧ ∀ d ∈ m.directives, d.wf

/-- An enum is well formed when its directive names are unique and the
directives are well formed. -/
def Enum.wf (e : Enum) : Prop :=
  (e.directives.map Directive.name).Nodup ∧ ∀ d ∈ e.directives, d.wf

/-- A schema is well formed when its top-level names are unique and every
declaration is well formed. -/
def SchemaAst.wf (ast : SchemaAst) : Prop :=
  (ast.enums.map Enum.name).Nodup ∧ (∀ e ∈ ast.enums, e.wf) ∧
    (ast.models.map Model.name).Nodup ∧ ∀ m ∈ ast.models, m.wf

instance (d : Directive) : Decidable d.wf := by
  unfold Directive.wf; infer_instance

instance (f : Field) : Decidable f.wf := by
  unfold Field.wf; infer_instance

instance (m : Model) : Decidable m.wf := by
  unfold Model.wf; infer_instance

instance (e : Enum) : Decidable e.wf := by
  unfold Enum.wf; infer_instance

instance (ast : SchemaAst) : Decidable ast.wf := by
  unfold SchemaAst.wf; infer_instance

/-! ### No update step without a recorded change -/

/-- A step records a change unless it is an UpdateEnum or UpdateField step
with none of its optional parts set. -/
def MigrationStep.records_a_change : MigrationStep → Bool
  | .UpdateEnum u => u.is_any_option_set
  | .UpdateField u => u.is_any_option_set
  | _ => true

/-! ### Enum-level steps versus model-level steps -/

/-- Whether a directive location sits on an enum. -/
def DirectiveLocation.is_enum_location : DirectiveLocation → Bool
  | .onEnum _ => true
  | _ => false

/-- Whether a step is enum-level: the enum steps themselves and directive
steps located on an enum. Every other step is model-level. -/
def MigrationStep.is_enum_level : MigrationStep → Bool
  | .CreateEnum _ => true
  | .UpdateEnum _ => true
  | .DeleteEnum _ => true
  | .CreateDirective st => st.locator.location.is_enum_location
  | .DeleteDirective st => st.locator.location.is_enum_location
  | .CreateDirectiveArgument st => st.directive_location.location.is_enum_location
  | .UpdateDirectiveArgument st => st.directive_location.location.is_enum_location
  | .DeleteDirectiveArgument st => st.directive_location.location.is_enum_location
  | _ => false

/-! ### The default directive and field steps -/

/-- The directive name a directive-level step is located at, none for the
entity-level steps. -/
def MigrationStep.directiveName : MigrationStep → Option String
  | .CreateDirective st => some st.locator.name
  | .DeleteDirective st => some st.locator.name
  | .CreateDirectiveArgument st => some st.directive_location.name
  | .UpdateDirectiveArgument st => some st.directive_location.name
  | .DeleteDirectiveArgument st => some st.directive_location.name
  | _ => none

/-- The rank of a step inside the steps of one updated model, in the order
the source emits them: steps of created fields, deleted fields, steps of
updated fields, created model directives, steps of updated model
directives, deleted model directives. -/
def model_child_rank (previous next : Model) (s : MigrationStep) : Nat :=
  match s with
  | .CreateField _ => 0
  | .DeleteField _ => 1
  | .UpdateField _ => 2
  | .CreateDirective st =>
    match st.locator.location with
    | .onField _ f =>
      if f ∈ (createdBy Field.name previous.fields next.fields).map Field.name then 0 else 2
    | .onModel _ =>
      if st.locator.name ∈
          (createdBy Directive.name previous.directives next.directives).map Directive.name
        then 3 else 4
    | .onEnum _ => 6
  | .CreateDirectiveArgument st =>
    match st.directive_location.location with
    | .onField _ f =>
      if f ∈ (createdBy Field.name previous.fields next.fields).map Field.name then 0 else 2
    | .onModel _ =>
      if st.directive_location.name ∈
          (createdBy Directive.name previous.directives next.directives).map Directive.name
        then 3 else 4
    | .onEnum _ => 6
  | .UpdateDirectiveArgument st =>
    match st.directive_location.location with
    | .onField _ _ => 2
    | .onModel _ => 4
    | .onEnum _ => 6
  | .DeleteDirectiveArgument st =>
    match st.directive_location.location with
    | .onField _ _ => 2
    | .onModel _ => 4
    | .onEnum _ => 6
  | .DeleteDirective st =>
    match st.locator.location with
    | .onField _ _ => 2
    | .onModel _ => 5
    | .onEnum _ => 6
  | _ => 6

/-- The rank of a step inside the steps of one updated enum, in the order
the source emits them: the UpdateEnum step, created directives, steps of
updated directives, deleted directives. -/
def enum_child_rank (previous next : Enum) (s : MigrationStep) : Nat :=
  match s with
  | .UpdateEnum _ => 0
  | .CreateDirective st =>
    match st.locator.location with
    | .onEnum _ =>
      if st.locator.name ∈
          (createdBy Directive.name previous.directives next.directives).map Directive.name
        then 1 else 2
    | _ => 6
  | .CreateDirectiveArgument st =>
    match st.directive_location.location with
    | .onEnum _ =>
      if st.directive_location.name ∈
          (createdBy Directive.name previous.directives next.directives).map Directive.name
        then 1 else 2
    | _ => 6
  | .UpdateDirectiveArgument st =>
    match st.directive_location.location with
    | .onEnum _ => 2
    | _ => 6
  | .DeleteDirectiveArgument st =>
    match st.directive_location.location with
    | .onEnum _ => 2
    | _ => 6
  | .DeleteDirective st =>
    match st.locator.location with
    | .onEnum _ => 3
    | _ => 6
  | _ => 6

/-- The rank a step would need for the claimed ordering of the children of
an updated model: created children first, then updated children, then
deleted children. -/
def claim_child_rank (previous next : Model) (s : MigrationStep) : Nat :=
  match s with
  | .CreateField _ => 0
  | .UpdateField _ => 1
  | .DeleteField _ => 2
  | .CreateDirective st =>
    match st.locator.location with
    | .onField _ f =>
      if f ∈ (createdBy Field.name previous.fields next.fields).map Field.name then 0 else 1
    | .onModel _ =>
      if st.locator.name ∈
          (createdBy Directive.name previous.directives next.directives).map Directive.name
        then 0 else 1
    | .onEnum _ => 3
  | .CreateDirectiveArgument st =>
    match st.directive_location.location with
    | .onField _ f =>
      if f ∈ (createdBy Field.name previous.fields next.fields).map Field.name then 0 else 1
    | .onModel _ =>
      if st.directive_location.name ∈
          (createdBy Directive.name previous.directives next.directives).map Directive.name
        then 0 else 1
    | .onEnum _ => 3
  | .UpdateDirectiveArgument _ => 1
  | .DeleteDirectiveArgument _ => 1
  | .DeleteDirective _ => 2
  | _ => 3

/-! ### The SQL migration connector (`sql-migration-connector/src/lib.rs`)

The quaint connection layer, the error kinds of migration_connector and the
migration persistence are not under src; they are modelled from the spec.
Connection descriptors are plain strings; the asynchronous connection
attempt is abstracted into an environment recording what the external
layers would do, so that the lifecycle logic of `SqlMigrationConnector` is
the only code under study. -/

/-- Modelled from the spec error taxonomy: the error kinds the embedded
connector code distinguishes. -/
inductive ErrorKind
  | InvalidDatabaseUrl
  | UrlParseError
  | ConnectTimeout
  | GenericConnectionError
  | QueryError
deriving DecidableEq

/-- A connector error: its kind, plus the optional user-facing payload. -/
structure ConnectorError where
  kind : ErrorKind
  user_facing_error : Option String
deriving DecidableEq

/-- Modelled from the spec: the closed set of engine families. -/
inductive SqlFamily
  | mysqlFamily
  | postgresFamily
  | sqliteFamily
deriving DecidableEq

/-- Modelled from the spec: the connection information quaint resolves from
a descriptor: the engine family variant with the working schema or database
name, and for sqlite also the database file path and its parent directory
when the path has one. -/
inductive ConnectionInfo
  | mysqlInfo (schema_name : String)
  | postgresInfo (schema_name : String)
  | sqliteInfo (file_path : String) (parent_directory : Option String) (schema_name : String)
deriving DecidableEq

/-- The working schema or database name of a connection. -/
def ConnectionInfo.schema_name : ConnectionInfo → String
  | .mysqlInfo s => s
  | .postgresInfo s => s
  | .sqliteInfo _ _ s => s

/-- The engine family of a connection. -/
def ConnectionInfo.sql_family : ConnectionInfo → SqlFamily
  | .mysqlInfo _ => SqlFamily.mysqlFamily
  | .postgresInfo _ => SqlFamily.postgresFamily
  | .sqliteInfo _ _ _ => SqlFamily.sqliteFamily

/-- Modelled from the spec: an established database connection, carrying
its resolved connection information. -/
structure DbConnection where
  info : ConnectionInfo
deriving DecidableEq

/-- Modelled from the spec: what the external connection layers would do
for one construction attempt: the outcome of parsing the descriptor, the
number of seconds the connection open plus the probe query would take, the
outcome of that connection future, and the outcome of resolving the
database information afterwards. -/
structure ConnectionEnv where
  from_url : Except ConnectorError ConnectionInfo
  connect_secs : Nat
  connect_result : Except ConnectorError DbConnection
  database_info_result : Except ConnectorError ConnectionInfo

/-- The `CONNECTION_TIMEOUT` constant, in seconds: `Duration::from_secs(10)`. -/
def CONNECTION_TIMEOUT : Nat := 10

/-- The scheme candidate examined by `validate_database_str`: the substring
before the first colon, the first piece of split on the colon (always
present, hence some). -/
def schemeOf (database_str : String) : Option String :=
  some (String.mk (database_str.toList.takeWhile (fun c => c ≠ ':')))

/-- String starts-with, embedded over character lists. -/
def starts_with (s p : String) : Bool :=
  p.toList.isPrefixOf s.toList

/-- The `validate_database_str` check: the provider must match the descriptor scheme,
otherwise the InvalidDatabaseUrl error is returned. The literal match of
the source is sequential equality testing on the provider and scheme
strings, rendered here as the equivalent chain of conditionals; the guarded
postgres arms fall through to the same catch-all error when the guard
fails. -/
def validate_database_str (database_str provider : String) : Except ConnectorError Unit :=
  match schemeOf database_str with
  | none => Except.error { kind := ErrorKind.InvalidDatabaseUrl, user_facing_error := none }
  | some scheme =>
    if provider = "mysql" ∧ scheme = "mysql" then Except.ok ()
    else if (provider = "postgresql" ∨ provider = "postgres") ∧
        starts_with scheme "postgres" = true then Except.ok ()
    else if provider = "sqlite" ∧ (scheme = "file" ∨ scheme = "sqlite") then Except.ok ()
    else Except.error { kind := ErrorKind.InvalidDatabaseUrl, user_facing_error := none }

/-- The scheme and family matching relation as the claim words it: mysql
with the mysql scheme, postgres or postgresql with a postgres scheme,
sqlite with the file or sqlite scheme. -/
def provider_matches_scheme (provider : String) (scheme : Option String) : Prop :=
  (provider = "mysql" ∧ scheme = some "mysql") ∨
    ((provider = "postgresql" ∨ provider = "postgres") ∧
      scheme.any (fun s => starts_with s "postgres") = true) ∨
    (provider = "sqlite" ∧ (scheme = some "file" ∨ scheme = some "sqlite"))

instance (provider : String) (scheme : Option String) :
    Decidable (provider_matches_scheme provider scheme) := by
  unfold provider_matches_scheme
  infer_instance

/-- The connector value `SqlMigrationConnector::new` builds: the working
schema name and the resolved database information (the queryable handle and
the describer are opaque capabilities, not data). -/
structure SqlMigrationConnector where
  schema_name : String
  database_info : ConnectionInfo
deriving DecidableEq

/-- Construction, `SqlMigrationConnector::new`: validate the descriptor against the
provider, parse it, run the connection future (open plus probe) under
CONNECTION_TIMEOUT, then resolve the database information. -/
def SqlMigrationConnector.new (database_str provider : String) (env : ConnectionEnv) :
    Except ConnectorError SqlMigrationConnector := do
  let _ ← validate_database_str database_str provider
  let _connection_info ← env.from_url
  let connection ←
    if CONNECTION_TIMEOUT < env.connect_secs then
      Except.error { kind := ErrorKind.ConnectTimeout, user_facing_error := none }
    else
      env.connect_result
  let database_info ← env.database_info_result
  Except.ok { schema_name := connection.info.schema_name, database_info := database_info }

/-- Modelled from the spec: the observable state of the target database:
which schemas or databases exist, which directories exist on the sqlite
side, and whether the migrations bookkeeping store is present. -/
structure DatabaseState where
  schemas : List String
  directories : List String
  migration_table_present : Bool
deriving DecidableEq

/-- Modelled from the SQL semantics the source relies on: CREATE SCHEMA IF
NOT EXISTS adds the schema when absent and is a successful no-op
otherwise. -/
def create_schema_if_not_exists (name : String) (db : DatabaseState) : DatabaseState :=
  if name ∈ db.schemas then db else { db with schemas := name :: db.schemas }

/-- Modelled from the filesystem semantics of create_dir_all: creates the
directory when absent, succeeds either way. -/
def create_dir_all (path : String) (db : DatabaseState) : DatabaseState :=
  if path ∈ db.directories then db else { db with directories := path :: db.directories }

/-- The `initialize_impl` effect: for sqlite ensure the parent directory of the
database file exists; for postgres and mysql run CREATE SCHEMA IF NOT
EXISTS on the working schema name. -/
def initialize_impl (connection_info : ConnectionInfo) (schema_name : String)
    (db : DatabaseState) : DatabaseState :=
  match connection_info with
  | .sqliteInfo _ none _ => db
  | .sqliteInfo _ (some parent_directory) _ => create_dir_all parent_directory db
  | .postgresInfo _ => create_schema_if_not_exists schema_name db
  | .mysqlInfo _ => create_schema_if_not_exists schema_name db

/-- Modelled from the spec: `MigrationPersistence::init` creates the
bookkeeping store if absent and is idempotent
(sql_migration_persistence.rs is not under src). -/
def migration_persistence_init (db : DatabaseState) : DatabaseState :=
  if db.migration_table_present then db else { db with migration_table_present := true }

/-- The `MigrationConnector::initialize` implementation of the SQL connector: run
initialize_impl, then the persistence init. -/
def initialize_connector (connector : SqlMigrationConnector) (db : DatabaseState) :
    Except ConnectorError DatabaseState :=
  Except.ok (migration_persistence_init
    (initialize_impl connector.database_info connector.schema_name db))

/-! ### The infer-migration-steps command (`infer_migration_steps.rs`) -/

/-- The result payload of the infer command; rendered database steps and
the three message lists are embedded as strings. -/
structure MigrationStepsResultOutput where
  datamodel_steps : List MigrationStep
  database_steps : List String
  errors : List String
  warnings : List String
  general_errors : List String

/-- The input payload of the infer command. -/
structure InferMigrationStepsInput where
  project_info : String
  migration_id : String
  data_model : String
  assume_to_be_applied : List MigrationStep

/-- Modelled from the spec: the collaborators the command reaches through
the engine and the connector, as abstract capabilities over an abstract
datamodel type and an abstract database migration type: the persisted
current datamodel, the datamodel calculator, the parser, the two step
inferrers, the pretty renderer, and the destructive changes checker the
command could consult but does not. -/
structure MigrationEngine (δ μ : Type) where
  empty_datamodel : δ
  current_datamodel : δ
  datamodel_calculator_infer : δ → List MigrationStep → δ
  parse : String → Except String δ
  datamodel_steps_infer : δ → δ → List MigrationStep
  database_migration_infer : δ → δ → List MigrationStep → μ
  render_steps_pretty : μ → List String
  destructive_check : μ → List String

/-- The `InferMigrationStepsCommand::execute` pipeline: derive the current datamodel,
parse the next one, infer the abstract and concrete steps, render, and
return the output with empty error and warning lists. -/
def InferMigrationStepsCommand.execute {δ μ : Type} (engine : MigrationEngine δ μ)
    (input : InferMigrationStepsInput) : Except String MigrationStepsResultOutput := do
  let current_data_model :=
    if input.assume_to_be_applied.isEmpty then engine.current_datamodel
    else engine.datamodel_calculator_infer engine.empty_datamodel input.assume_to_be_applied
  let next_data_model ← engine.parse input.data_model
  let model_migration_steps := engine.datamodel_steps_infer current_data_model next_data_model
  let database_migration :=
    engine.database_migration_infer current_data_model next_data_model model_migration_steps
  let database_steps_json := engine.render_steps_pretty database_migration
  Except.ok
    { datamodel_steps := model_migration_steps
      database_steps := database_steps_json
      errors := []
      warnings := []
      general_errors := [] }

/-! ### Deserializing a database migration -/

/-- A JSON value. -/
inductive Json
  | null
  | jbool (b : Bool)
  | num (n : Int)
  | str (s : String)
  | arr (elements : List Json)
  | obj (fields : List (String × Json))

/-- Modelled from the spec: the concrete SqlMigration payload
(sql_migration.rs is not under src): an ordered list of rendered
connector-specific operations. -/
structure SqlMigration where
  steps : List String
deriving DecidableEq

/-- Modelled from the spec: serde deserialization of a SqlMigration,
succeeding exactly on values of the serialized shape (an object whose
steps field is an array of strings). -/
def sql_migration_from_value : Json → Option SqlMigration
  | Json.obj [("steps", Json.arr elements)] =>
    (elements.mapM (fun e =>
      match e with
      | Json.str s => some s
      | _ => none)).map (fun steps => { steps := steps })
  | _ => none

/-- Either a panic with its message, or a returned value: the observable
behavior of a Rust function that may panic. -/
inductive PanicOr (α : Type)
  | panicked (message : String)
  | returned (value : α)

/-- The `deserialize_database_migration` implementation: expect on the
serde result, so any non-deserializable JSON value panics. -/
def deserialize_database_migration (json : Json) : PanicOr SqlMigration :=
  match sql_migration_from_value json with
  | some migration => PanicOr.returned migration
  | none => PanicOr.panicked "Deserializing the database migration failed."

/-! ### Concrete fixtures -/

/-- A small well-formed schema exercising enums, models, fields, field
directives with arguments and a folded default. -/
def exampleAst : SchemaAst :=
  { enums := [{ name := "Color", values := ["RED", "BLUE"],
                directives := [{ name := "db", arguments := [{ name := "name", value := "colors" }] }] }],
    models := [{ name := "User",
                 fields := [
                   { name := "id", field_type := "Int", arity := FieldArity.required,
                     directives := [{ name := "id", arguments := [] },
                       { name := "default", arguments := [{ name := "", value := "1" }] }] },
                   { name := "email", field_type := "String", arity := FieldArity.optional,
                     directives := [] }],
                 directives := [{ name := "map", arguments := [{ name := "", value := "users" }] }] }] }

/-- A schema whose two enums share one name: name-keyed pairing matches the
second enum with the first. -/
def dupEnumAst : SchemaAst :=
  { enums := [{ name := "E", values := ["a"], directives := [] },
              { name := "E", values := ["b"], directives := [] }],
    models := [] }

/-- A field named age with a default directive whose positional argument is
the given literal. -/
def fieldAgeDefault (v : String) : Field :=
  { name := "age", field_type := "Int", arity := FieldArity.required,
    directives := [{ name := "default", arguments := [{ name := "", value := v }] }] }

/-- A one-model schema whose single field carries a default directive. -/
def astAge (v : String) : SchemaAst :=
  { enums := [], models := [{ name := "User", fields := [fieldAgeDefault v], directives := [] }] }

/-- A one-model schema with no fields: the previous side of a created
field. -/
def astUserEmpty : SchemaAst :=
  { enums := [], models := [{ name := "User", fields := [], directives := [] }] }

/-- Previous side of an updated model: fields a and b. -/
def c3ModelPrev : Model :=
  { name := "M",
    fields := [{ name := "a", field_type := "Int", arity := FieldArity.required, directives := [] },
               { name := "b", field_type := "Int", arity := FieldArity.required, directives := [] }],
    directives := [] }

/-- Next side of an updated model: field b deleted, field a retyped. -/
def c3ModelNext : Model :=
  { name := "M",
    fields := [{ name := "a", field_type := "String", arity := FieldArity.required,
                 directives := [] }],
    directives := [] }

/-- Schema holding the previous side of the updated model. -/
def c3Prev : SchemaAst := { enums := [], models := [c3ModelPrev] }

/-- Schema holding the next side of the updated model. -/
def c3Next : SchemaAst := { enums := [], models := [c3ModelNext] }

/-- Previous side of an updated enum. -/
def colorPrevEnum : Enum := { name := "Color", values := ["RED", "BLUE"], directives := [] }

/-- Next side of an updated enum. -/
def colorNextEnum : Enum := { name := "Color", values := ["RED", "GREEN"], directives := [] }

/-- Schema holding the previous side of the updated enum. -/
def astColorPrev : SchemaAst := { enums := [colorPrevEnum], models := [] }

/-- Schema holding the next side of the updated enum. -/
def astColorNext : SchemaAst := { enums := [colorNextEnum], models := [] }

/-- An environment in which every external connection layer would succeed
promptly. -/
def envReady : ConnectionEnv :=
  { from_url := Except.ok (ConnectionInfo.postgresInfo "public")
    connect_secs := 1
    connect_result := Except.ok { info := ConnectionInfo.postgresInfo "public" }
    database_info_result := Except.ok (ConnectionInfo.postgresInfo "public") }

/-- An environment in which the connection open plus probe takes 11
seconds, past the timeout. -/
def envSlow : ConnectionEnv :=
  { from_url := Except.ok (ConnectionInfo.mysqlInfo "mydb")
    connect_secs := 11
    connect_result := Except.ok { info := ConnectionInfo.mysqlInfo "mydb" }
    database_info_result := Except.ok (ConnectionInfo.mysqlInfo "mydb") }

/-- A trivial engine over unit datamodels and migrations. -/
def engineUnit : MigrationEngine Unit Unit :=
  { empty_datamodel := ()
    current_datamodel := ()
    datamodel_calculator_infer := fun _ _ => ()
    parse := fun _ => Except.ok ()
    datamodel_steps_infer := fun _ _ => []
    database_migration_infer := fun _ _ _ => ()
    render_steps_pretty := fun _ => []
    destructive_check := fun _ => [] }

/-- A concrete infer-command input. -/
def inputW : InferMigrationStepsInput :=
  { project_info := "", migration_id := "m1", data_model := "model User",
    assume_to_be_applied := [] }

/-- The output the trivial engine produces on the concrete input. -/
def outW : MigrationStepsResultOutput :=
  { datamodel_steps := [], database_steps := [], errors := [], warnings := [],
    general_errors := [] }

/-! ## Theorems -/
/-! ### Partition lemmas -/

theorem createdBy_self {α : Type} (key : α → String) (l : List α) :
    createdBy key l l = [] := by
  rw [createdBy, List.filter_eq_nil_iff]
  intro a ha h
  rw [Bool.not_eq_true'] at h
  have ht : l.any (fun p => key p == key a) = true := List.any_eq_true.mpr ⟨a, ha, by simp⟩
  rw [ht] at h
  exact Bool.noConfusion h

theorem deletedBy_self {α : Type} (key : α → String) (l : List α) :
    deletedBy key l l = [] := by
  rw [deletedBy, List.filter_eq_nil_iff]
  intro a ha h
  rw [Bool.not_eq_true'] at h
  have ht : l.any (fun n => key n == key a) = true := List.any_eq_true.mpr ⟨a, ha, by simp⟩
  rw [ht] at h
  exact Bool.noConfusion h

theorem find_eq_self_of_nodup {α : Type} (key : α → String) {l : List α}
    (hn : (l.map key).Nodup) {p : α} (hp : p ∈ l) :
    l.find? (fun n => key n == key p) = some p := by
  induction l with
  | nil => cases hp
  | cons a t ih =>
    rw [List.map_cons, List.nodup_cons] at hn
    rcases List.mem_cons.mp hp with h | h
    · subst h
      exact List.find?_cons_of_pos _ (by simp)
    · have hne : key a ≠ key p := fun he => hn.1 (he ▸ List.mem_map_of_mem key h)
      rw [List.find?_cons_of_neg _ (by simp [hne])]
      exact ih hn.2 h

theorem pairsBy_self_of_nodup {α : Type} (key : α → String) {l : List α}
    (hn : (l.map key).Nodup) :
    pairsBy key l l = l.map (fun x => (x, x)) := by
  rw [pairsBy]
  have aux : ∀ s : List α, (∀ p ∈ s, p ∈ l) →
      s.filterMap (fun p => (l.find? (fun n => key n == key p)).map (fun n => (p, n))) =
        s.map (fun x => (x, x)) := by
    intro s hs
    induction s with
    | nil => rfl
    | cons a t ih =>
      rw [List.filterMap_cons, List.map_cons,
        find_eq_self_of_nodup key hn (hs a (List.mem_cons_self a t))]
      exact congrArg _ (ih fun p hp => hs p (List.mem_cons_of_mem a hp))
  exact aux l (fun p hp => hp)

theorem nodup_map_of_filter {α : Type} (key : α → String) (q : α → Bool) {l : List α}
    (hn : (l.map key).Nodup) : ((l.filter q).map key).Nodup :=
  hn.sublist (List.Sublist.map key (List.filter_sublist l))

theorem key_notin_previous_of_mem_createdBy {α : Type} {key : α → String}
    {previous next : List α} {x : α} (hx : x ∈ createdBy key previous next) :
    key x ∉ previous.map key := by
  intro hmem
  obtain ⟨hxn, hpred⟩ := List.mem_filter.mp hx
  rw [Bool.not_eq_true', List.any_eq_false] at hpred
  rcases List.mem_map.mp hmem with ⟨p, hp, hkey⟩
  exact hpred p hp (by simp [hkey])

theorem fst_mem_of_mem_pairsBy {α : Type} {key : α → String}
    {previous next : List α} {pr : α × α} (h : pr ∈ pairsBy key previous next) :
    pr.1 ∈ previous := by
  rw [pairsBy] at h
  rcases List.mem_filterMap.mp h with ⟨p, hp, hsome⟩
  rcases Option.map_eq_some'.mp hsome with ⟨n, _, heq⟩
  rw [← heq]
  exact hp

theorem pairs_key_notin_created {α : Type} {key : α → String}
    {previous next : List α} {pr : α × α} (h : pr ∈ pairsBy key previous next) :
    key pr.1 ∉ (createdBy key previous next).map key := by
  intro hmem
  rcases List.mem_map.mp hmem with ⟨c, hc, hkey⟩
  exact key_notin_previous_of_mem_createdBy hc
    (hkey ▸ List.mem_map_of_mem key (fst_mem_of_mem_pairsBy h))

theorem flatMap_eq_nil_of_forall {α β : Type} {l : List α} {f : α → List β}
    (h : ∀ x ∈ l, f x = []) : l.flatMap f = [] := by
  induction l with
  | nil => rfl
  | cons a t ih =>
    rw [List.flatMap_cons, h a (List.mem_cons_self a t), List.nil_append]
    exact ih fun x hx => h x (List.mem_cons_of_mem a hx)

/-! ### Diffing a schema against itself -/

theorem push_updated_directive_argument_self (locator : DirectiveLocator) (a : Argument) :
    push_updated_directive_argument locator a a = [] := by
  simp [push_updated_directive_argument]

theorem push_updated_directive_self (location : DirectiveLocation) {d : Directive}
    (h : d.wf) : push_updated_directive location d d = [] := by
  simp only [push_updated_directive]
  rw [createdBy_self, deletedBy_self, pairsBy_self_of_nodup Argument.name h]
  rw [List.flatMap_nil, List.flatMap_nil, List.nil_append, List.append_nil]
  apply flatMap_eq_nil_of_forall
  intro pr hpr
  rcases List.mem_map.mp hpr with ⟨a, _, rfl⟩
  exact push_updated_directive_argument_self _ a

theorem push_updated_directives_self (location : DirectiveLocation) {ds : List Directive}
    (hn : (ds.map Directive.name).Nodup) (hwf : ∀ d ∈ ds, d.wf) :
    push_updated_directives location (pairsBy Directive.name ds ds) = [] := by
  rw [pairsBy_self_of_nodup Directive.name hn, push_updated_directives]
  apply flatMap_eq_nil_of_forall
  intro pr hpr
  rcases List.mem_map.mp hpr with ⟨d, hd, rfl⟩
  exact push_updated_directive_self location (hwf d hd)

theorem update_enum_step_self (e : Enum) :
    update_enum_step e e =
      { name := e.name, new_name := none, created_values := [], deleted_values := [] } := by
  rw [update_enum_step, createdBy_self, deletedBy_self]
  simp [diff_value]

theorem push_updated_enum_self {e : Enum} (h : e.wf) : push_updated_enum e e = [] := by
  simp only [push_updated_enum, update_enum_step_self]
  rw [createdBy_self, deletedBy_self, push_updated_directives_self _ h.1 h.2]
  simp [UpdateEnum.is_any_option_set, push_created_directives, push_deleted_directives]

theorem update_field_step_self (model_name : String) (f : Field) :
    update_field_step model_name f f =
      { arity := none, new_name := none, model := model_name, name := f.name,
        tpe := none, default := none } := by
  rw [update_field_step]
  simp [diff_value]

theorem push_updated_field_self (model_name : String) {f : Field} (h : f.wf) :
    push_updated_field model_name f f = [] := by
  have hn : (f.diff_directives.map Directive.name).Nodup := by
    rw [Field.diff_directives]
    exact nodup_map_of_filter Directive.name _ h.1
  have hw : ∀ d ∈ f.diff_directives, d.wf := by
    intro d hd
    rw [Field.diff_directives] at hd
    exact h.2 d (List.mem_of_mem_filter hd)
  simp only [push_updated_field, update_field_step_self]
  rw [createdBy_self, deletedBy_self, push_updated_directives_self _ hn hw]
  simp [UpdateField.is_any_option_set, push_created_directives, push_deleted_directives]

theorem push_updated_model_self {m : Model} (h : m.wf) : push_updated_model m m = [] := by
  obtain ⟨hf, hfw, hd, hdw⟩ := h
  simp only [push_updated_model]
  rw [createdBy_self, deletedBy_self, createdBy_self, deletedBy_self]
  rw [pairsBy_self_of_nodup Field.name hf, push_updated_directives_self _ hd hdw]
  have hfields : push_updated_fields m.name (m.fields.map fun x => (x, x)) = [] := by
    rw [push_updated_fields]
    apply flatMap_eq_nil_of_forall
    intro pr hpr
    rcases List.mem_map.mp hpr with ⟨f, hfm, rfl⟩
    exact push_updated_field_self m.name (hfw f hfm)
  rw [hfields]
  simp [push_created_fields, push_deleted_fields, push_created_directives,
    push_deleted_directives]

theorem diff_self {A : SchemaAst} (h : A.wf) : diff A A = [] := by
  obtain ⟨he, hew, hm, hmw⟩ := h
  rw [diff, push_enums, push_models]
  rw [createdBy_self, deletedBy_self, createdBy_self, deletedBy_self]
  rw [pairsBy_self_of_nodup Enum.name he, pairsBy_self_of_nodup Model.name hm]
  have h1 : push_updated_enums (A.enums.map fun x => (x, x)) = [] := by
    rw [push_updated_enums]
    apply flatMap_eq_nil_of_forall
    intro pr hpr
    rcases List.mem_map.mp hpr with ⟨e, hem, rfl⟩
    exact push_updated_enum_self (hew e hem)
  have h2 : push_updated_models (A.models.map fun x => (x, x)) = [] := by
    rw [push_updated_models]
    apply flatMap_eq_nil_of_forall
    intro pr hpr
    rcases List.mem_map.mp hpr with ⟨mo, hmm, rfl⟩
    exact push_updated_model_self (hmw mo hmm)
  rw [h1, h2]
  simp [push_created_enums, push_deleted_enums, push_created_models, push_deleted_models]

/-! ### Membership characterizations of the push functions -/

theorem of_mem_push_created_directive {location : DirectiveLocation} {d : Directive}
    {s : MigrationStep} (hs : s ∈ push_created_directive location d) :
    s = MigrationStep.CreateDirective { locator := { location := location, name := d.name } } ∨
      ∃ a ∈ d.arguments,
        s = MigrationStep.CreateDirectiveArgument
          { directive_location := { location := location, name := d.name }
            argument_name := a.name
            argument_value := { expr := a.value } } := by
  simp only [push_created_directive, List.mem_cons, List.mem_map] at hs
  rcases hs with h | ⟨a, ha, rfl⟩
  · exact Or.inl h
  · exact Or.inr ⟨a, ha, rfl⟩

theorem of_mem_push_created_directives {location : DirectiveLocation} {ds : List Directive}
    {s : MigrationStep} (hs : s ∈ push_created_directives location ds) :
    ∃ d ∈ ds,
      s = MigrationStep.CreateDirective { locator := { location := location, name := d.name } } ∨
        ∃ a ∈ d.arguments,
          s = MigrationStep.CreateDirectiveArgument
            { directive_location := { location := location, name := d.name }
              argument_name := a.name
              argument_value := { expr := a.value } } := by
  simp only [push_created_directives, List.mem_flatMap] at hs
  obtain ⟨d, hd, hsd⟩ := hs
  exact ⟨d, hd, of_mem_push_created_directive hsd⟩

theorem of_mem_push_deleted_directives {location : DirectiveLocation} {ds : List Directive}
    {s : MigrationStep} (hs : s ∈ push_deleted_directives location ds) :
    ∃ d ∈ ds,
      s = MigrationStep.DeleteDirective { locator := { location := location, name := d.name } } := by
  simp only [push_deleted_directives, push_deleted_directive, List.mem_flatMap,
    List.mem_singleton] at hs
  exact hs

theorem of_mem_push_updated_directive {location : DirectiveLocation} {p n : Directive}
    {s : MigrationStep} (hs : s ∈ push_updated_directive location p n) :
    (∃ a : Argument,
        s = MigrationStep.CreateDirectiveArgument
          { directive_location := { location := location, name := p.name }
            argument_name := a.name
            argument_value := { expr := a.value } }) ∨
      (∃ a : Argument,
        s = MigrationStep.UpdateDirectiveArgument
          { directive_location := { location := location, name := p.name }
            argument_name := a.name
            new_argument_value := { expr := a.value } }) ∨
      ∃ a : String,
        s = MigrationStep.DeleteDirectiveArgument
          { directive_location := { location := location, name := p.name }
            argument_name := a } := by
  simp only [push_updated_directive, List.mem_append, List.mem_flatMap,
    push_created_directive_argument, push_deleted_directive_argument,
    List.mem_singleton] at hs
  rcases hs with (⟨a, _, rfl⟩ | ⟨pr, _, hm⟩) | ⟨a, _, rfl⟩
  · exact Or.inl ⟨a, rfl⟩
  · simp only [push_updated_directive_argument] at hm
    by_cases hv : MigrationExpression.from_ast_expression pr.1.value =
        MigrationExpression.from_ast_expression pr.2.value
    · rw [if_pos hv] at hm
      cases hm
    · rw [if_neg hv] at hm
      rcases List.mem_singleton.mp hm with rfl
      exact Or.inr (Or.inl ⟨pr.2, rfl⟩)
  · exact Or.inr (Or.inr ⟨a.name, rfl⟩)

theorem of_mem_push_updated_directives {location : DirectiveLocation}
    {pairs : List (Directive × Directive)} {s : MigrationStep}
    (hs : s ∈ push_updated_directives location pairs) :
    ∃ pr ∈ pairs, s ∈ push_updated_directive location pr.1 pr.2 := by
  simpa only [push_updated_directives, List.mem_flatMap] using hs

theorem of_mem_push_created_fields {model_name : String} {fs : List Field}
    {s : MigrationStep} (hs : s ∈ push_created_fields model_name fs) :
    ∃ f ∈ fs,
      s = MigrationStep.CreateField
          { arity := f.arity, name := f.name, tpe := f.field_type, model := model_name,
            db_name := get_directive_string_value "map" f.directives,
            default := field_default f } ∨
        s ∈ push_created_directives (DirectiveLocation.onField model_name f.name) f.directives := by
  simp only [push_created_fields, List.mem_flatMap, List.mem_cons] at hs
  obtain ⟨f, hf, hsf⟩ := hs
  exact ⟨f, hf, hsf⟩

theorem of_mem_push_deleted_fields {model_name : String} {fs : List Field}
    {s : MigrationStep} (hs : s ∈ push_deleted_fields model_name fs) :
    ∃ f ∈ fs, s = MigrationStep.DeleteField { model := model_name, name := f.name } := by
  simp only [push_deleted_fields, List.mem_map] at hs
  obtain ⟨f, hf, rfl⟩ := hs
  exact ⟨f, hf, rfl⟩

theorem of_mem_push_updated_field {model_name : String} {p n : Field} {s : MigrationStep}
    (hs : s ∈ push_updated_field model_name p n) :
    ((update_field_step model_name p n).is_any_option_set = true ∧
        s = MigrationStep.UpdateField (update_field_step model_name p n)) ∨
      s ∈ push_created_directives (DirectiveLocation.onField model_name p.name)
          (createdBy Directive.name p.diff_directives n.diff_directives) ∨
      s ∈ push_updated_directives (DirectiveLocation.onField model_name p.name)
          (pairsBy Directive.name p.diff_directives n.diff_directives) ∨
      s ∈ push_deleted_directives (DirectiveLocation.onField model_name p.name)
          (deletedBy Directive.name p.diff_directives n.diff_directives) := by
  simp only [push_updated_field, List.mem_append] at hs
  rcases hs with ((hg | hc) | hu) | hd
  · by_cases hset : (update_field_step model_name p n).is_any_option_set = true
    · rw [if_pos hset] at hg
      exact Or.inl ⟨hset, List.mem_singleton.mp hg⟩
    · rw [if_neg hset] at hg
      cases hg
  · exact Or.inr (Or.inl hc)
  · exact Or.inr (Or.inr (Or.inl hu))
  · exact Or.inr (Or.inr (Or.inr hd))

theorem of_mem_push_updated_fields {model_name : String} {pairs : List (Field × Field)}
    {s : MigrationStep} (hs : s ∈ push_updated_fields model_name pairs) :
    ∃ pr ∈ pairs, s ∈ push_updated_field model_name pr.1 pr.2 := by
  simpa only [push_updated_fields, List.mem_flatMap] using hs

theorem of_mem_push_created_models {models : List Model} {s : MigrationStep}
    (hs : s ∈ push_created_models models) :
    ∃ m ∈ models,
      s = MigrationStep.CreateModel
          { name := m.name, embedded := false,
            db_name := get_directive_string_value "map" m.directives } ∨
        s ∈ push_created_fields m.name m.fields ∨
        s ∈ push_created_directives (DirectiveLocation.onModel m.name) m.directives := by
  simp only [push_created_models, List.mem_flatMap, List.mem_cons, List.mem_append] at hs
  obtain ⟨m, hm, hsm⟩ := hs
  exact ⟨m, hm, hsm⟩

theorem of_mem_push_deleted_models {models : List Model} {s : MigrationStep}
    (hs : s ∈ push_deleted_models models) :
    ∃ m ∈ models, s = MigrationStep.DeleteModel { name := m.name } := by
  simp only [push_deleted_models, List.mem_map] at hs
  obtain ⟨m, hm, rfl⟩ := hs
  exact ⟨m, hm, rfl⟩

theorem of_mem_push_updated_model {p n : Model} {s : MigrationStep}
    (hs : s ∈ push_updated_model p n) :
    s ∈ push_created_fields p.name (createdBy Field.name p.fields n.fields) ∨
      s ∈ push_deleted_fields p.name (deletedBy Field.name p.fields n.fields) ∨
      s ∈ push_updated_fields p.name (pairsBy Field.name p.fields n.fields) ∨
      s ∈ push_created_directives (DirectiveLocation.onModel p.name)
          (createdBy Directive.name p.directives n.directives) ∨
      s ∈ push_updated_directives (DirectiveLocation.onModel p.name)
          (pairsBy Directive.name p.directives n.directives) ∨
      s ∈ push_deleted_directives (DirectiveLocation.onModel p.name)
          (deletedBy Directive.name p.directives n.directives) := by
  simpa only [push_updated_model, List.mem_append, or_assoc] using hs

theorem of_mem_push_updated_models {pairs : List (Model × Model)} {s : MigrationStep}
    (hs : s ∈ push_updated_models pairs) :
    ∃ pr ∈ pairs, s ∈ push_updated_model pr.1 pr.2 := by
  simpa only [push_updated_models, List.mem_flatMap] using hs

theorem of_mem_push_created_enums {enums : List Enum} {s : MigrationStep}
    (hs : s ∈ push_created_enums enums) :
    ∃ e ∈ enums,
      s = MigrationStep.CreateEnum { name := e.name, values := e.values } ∨
        s ∈ push_created_directives (DirectiveLocation.onEnum e.name) e.directives := by
  simp only [push_created_enums, List.mem_flatMap, List.mem_cons] at hs
  obtain ⟨e, he, hse⟩ := hs
  exact ⟨e, he, hse⟩

theorem of_mem_push_deleted_enums {enums : List Enum} {s : MigrationStep}
    (hs : s ∈ push_deleted_enums enums) :
    ∃ e ∈ enums, s = MigrationStep.DeleteEnum { name := e.name } := by
  simp only [push_deleted_enums, List.mem_map] at hs
  obtain ⟨e, he, rfl⟩ := hs
  exact ⟨e, he, rfl⟩

theorem of_mem_push_updated_enum {p n : Enum} {s : MigrationStep}
    (hs : s ∈ push_updated_enum p n) :
    ((update_enum_step p n).is_any_option_set = true ∧
        s = MigrationStep.UpdateEnum (update_enum_step p n)) ∨
      s ∈ push_created_directives (DirectiveLocation.onEnum p.name)
          (createdBy Directive.name p.directives n.directives) ∨
      s ∈ push_updated_directives (DirectiveLocation.onEnum p.name)
          (pairsBy Directive.name p.directives n.directives) ∨
      s ∈ push_deleted_directives (DirectiveLocation.onEnum p.name)
          (deletedBy Directive.name p.directives n.directives) := by
  simp only [push_updated_enum, List.mem_append] at hs
  rcases hs with ((hg | hc) | hu) | hd
  · by_cases hset : (update_enum_step p n).is_any_option_set = true
    · rw [if_pos hset] at hg
      exact Or.inl ⟨hset, List.mem_singleton.mp hg⟩
    · rw [if_neg hset] at hg
      cases hg
  · exact Or.inr (Or.inl hc)
  · exact Or.inr (Or.inr (Or.inl hu))
  · exact Or.inr (Or.inr (Or.inr hd))

theorem of_mem_push_updated_enums {pairs : List (Enum × Enum)} {s : MigrationStep}
    (hs : s ∈ push_updated_enums pairs) :
    ∃ pr ∈ pairs, s ∈ push_updated_enum pr.1 pr.2 := by
  simpa only [push_updated_enums, List.mem_flatMap] using hs

theorem of_mem_push_enums {previous next : SchemaAst} {s : MigrationStep}
    (hs : s ∈ push_enums previous next) :
    s ∈ push_created_enums (createdBy Enum.name previous.enums next.enums) ∨
      s ∈ push_deleted_enums (deletedBy Enum.name previous.enums next.enums) ∨
      s ∈ push_updated_enums (pairsBy Enum.name previous.enums next.enums) := by
  simpa only [push_enums, List.mem_append, or_assoc] using hs

theorem of_mem_push_models {previous next : SchemaAst} {s : MigrationStep}
    (hs : s ∈ push_models previous next) :
    s ∈ push_created_models (createdBy Model.name previous.models next.models) ∨
      s ∈ push_deleted_models (deletedBy Model.name previous.models next.models) ∨
      s ∈ push_updated_models (pairsBy Model.name previous.models next.models) := by
  simpa only [push_models, List.mem_append, or_assoc] using hs

theorem records_of_mem_push_created_directives {location : DirectiveLocation}
    {ds : List Directive} {s : MigrationStep} (hs : s ∈ push_created_directives location ds) :
    s.records_a_change = true := by
  rcases of_mem_push_created_directives hs with ⟨d, _, rfl | ⟨a, _, rfl⟩⟩ <;> rfl

theorem records_of_mem_push_updated_directives {location : DirectiveLocation}
    {pairs : List (Directive × Directive)} {s : MigrationStep}
    (hs : s ∈ push_updated_directives location pairs) : s.records_a_change = true := by
  obtain ⟨pr, _, hpr⟩ := of_mem_push_updated_directives hs
  rcases of_mem_push_updated_directive hpr with ⟨a, rfl⟩ | ⟨a, rfl⟩ | ⟨a, rfl⟩ <;> rfl

theorem records_of_mem_push_deleted_directives {location : DirectiveLocation}
    {ds : List Directive} {s : MigrationStep} (hs : s ∈ push_deleted_directives location ds) :
    s.records_a_change = true := by
  obtain ⟨d, _, rfl⟩ := of_mem_push_deleted_directives hs
  rfl

theorem records_of_mem_push_created_fields {model_name : String} {fs : List Field}
    {s : MigrationStep} (hs : s ∈ push_created_fields model_name fs) :
    s.records_a_change = true := by
  rcases of_mem_push_created_fields hs with ⟨f, _, rfl | hd⟩
  · rfl
  · exact records_of_mem_push_created_directives hd

theorem records_of_mem_push_updated_fields {model_name : String}
    {pairs : List (Field × Field)} {s : MigrationStep}
    (hs : s ∈ push_updated_fields model_name pairs) : s.records_a_change = true := by
  obtain ⟨pr, _, hpr⟩ := of_mem_push_updated_fields hs
  rcases of_mem_push_updated_field hpr with ⟨hset, rfl⟩ | hc | hu | hd
  · simpa [MigrationStep.records_a_change] using hset
  · exact records_of_mem_push_created_directives hc
  · exact records_of_mem_push_updated_directives hu
  · exact records_of_mem_push_deleted_directives hd

theorem records_of_mem_push_updated_enums {pairs : List (Enum × Enum)} {s : MigrationStep}
    (hs : s ∈ push_updated_enums pairs) : s.records_a_change = true := by
  obtain ⟨pr, _, hpr⟩ := of_mem_push_updated_enums hs
  rcases of_mem_push_updated_enum hpr with ⟨hset, rfl⟩ | hc | hu | hd
  · simpa [MigrationStep.records_a_change] using hset
  · exact records_of_mem_push_created_directives hc
  · exact records_of_mem_push_updated_directives hu
  · exact records_of_mem_push_deleted_directives hd

theorem records_of_mem_diff {previous next : SchemaAst} {s : MigrationStep}
    (hs : s ∈ diff previous next) : s.records_a_change = true := by
  rcases List.mem_append.mp hs with he | hm
  · rcases of_mem_push_enums he with hc | hd | hu
    · rcases of_mem_push_created_enums hc with ⟨e, _, rfl | hdir⟩
      · rfl
      · exact records_of_mem_push_created_directives hdir
    · obtain ⟨e, _, rfl⟩ := of_mem_push_deleted_enums hd
      rfl
    · exact records_of_mem_push_updated_enums hu
  · rcases of_mem_push_models hm with hc | hd | hu
    · rcases of_mem_push_created_models hc with ⟨m, _, rfl | hf | hdir⟩
      · rfl
      · exact records_of_mem_push_created_fields hf
      · exact records_of_mem_push_created_directives hdir
    · obtain ⟨m, _, rfl⟩ := of_mem_push_deleted_models hd
      rfl
    · obtain ⟨pr, _, hpr⟩ := of_mem_push_updated_models hu
      rcases of_mem_push_updated_model hpr with hcf | hdf | huf | hcd | hud | hdd
      · exact records_of_mem_push_created_fields hcf
      · obtain ⟨f, _, rfl⟩ := of_mem_push_deleted_fields hdf
        rfl
      · exact records_of_mem_push_updated_fields huf
      · exact records_of_mem_push_created_directives hcd
      · exact records_of_mem_push_updated_directives hud
      · exact records_of_mem_push_deleted_directives hdd

theorem enum_level_of_mem_created_directives {location : DirectiveLocation}
    {ds : List Directive} {s : MigrationStep} (hs : s ∈ push_created_directives location ds) :
    s.is_enum_level = location.is_enum_location := by
  rcases of_mem_push_created_directives hs with ⟨d, _, rfl | ⟨a, _, rfl⟩⟩ <;> rfl

theorem enum_level_of_mem_updated_directives {location : DirectiveLocation}
    {pairs : List (Directive × Directive)} {s : MigrationStep}
    (hs : s ∈ push_updated_directives location pairs) :
    s.is_enum_level = location.is_enum_location := by
  obtain ⟨pr, _, hpr⟩ := of_mem_push_updated_directives hs
  rcases of_mem_push_updated_directive hpr with ⟨a, rfl⟩ | ⟨a, rfl⟩ | ⟨a, rfl⟩ <;> rfl

theorem enum_level_of_mem_deleted_directives {location : DirectiveLocation}
    {ds : List Directive} {s : MigrationStep} (hs : s ∈ push_deleted_directives location ds) :
    s.is_enum_level = location.is_enum_location := by
  obtain ⟨d, _, rfl⟩ := of_mem_push_deleted_directives hs
  rfl

theorem enum_level_of_mem_push_enums {previous next : SchemaAst} {s : MigrationStep}
    (hs : s ∈ push_enums previous next) : s.is_enum_level = true := by
  rcases of_mem_push_enums hs with hc | hd | hu
  · rcases of_mem_push_created_enums hc with ⟨e, _, rfl | hdir⟩
    · rfl
    · exact enum_level_of_mem_created_directives hdir
  · obtain ⟨e, _, rfl⟩ := of_mem_push_deleted_enums hd
    rfl
  · obtain ⟨pr, _, hpr⟩ := of_mem_push_updated_enums hu
    rcases of_mem_push_updated_enum hpr with ⟨_, rfl⟩ | hc | hu2 | hd2
    · rfl
    · exact enum_level_of_mem_created_directives hc
    · exact enum_level_of_mem_updated_directives hu2
    · exact enum_level_of_mem_deleted_directives hd2

theorem model_level_of_mem_push_created_fields {model_name : String} {fs : List Field}
    {s : MigrationStep} (hs : s ∈ push_created_fields model_name fs) :
    s.is_enum_level = false := by
  rcases of_mem_push_created_fields hs with ⟨f, _, rfl | hdir⟩
  · rfl
  · exact enum_level_of_mem_created_directives hdir

theorem model_level_of_mem_push_updated_fields {model_name : String}
    {pairs : List (Field × Field)} {s : MigrationStep}
    (hs : s ∈ push_updated_fields model_name pairs) : s.is_enum_level = false := by
  obtain ⟨pr, _, hpr⟩ := of_mem_push_updated_fields hs
  rcases of_mem_push_updated_field hpr with ⟨_, rfl⟩ | hc | hu | hd
  · rfl
  · exact enum_level_of_mem_created_directives hc
  · exact enum_level_of_mem_updated_directives hu
  · exact enum_level_of_mem_deleted_directives hd

theorem model_level_of_mem_push_models {previous next : SchemaAst} {s : MigrationStep}
    (hs : s ∈ push_models previous next) : s.is_enum_level = false := by
  rcases of_mem_push_models hs with hc | hd | hu
  · rcases of_mem_push_created_models hc with ⟨m, _, rfl | hf | hdir⟩
    · rfl
    · exact model_level_of_mem_push_created_fields hf
    · exact enum_level_of_mem_created_directives hdir
  · obtain ⟨m, _, rfl⟩ := of_mem_push_deleted_models hd
    rfl
  · obtain ⟨pr, _, hpr⟩ := of_mem_push_updated_models hu
    rcases of_mem_push_updated_model hpr with hcf | hdf | huf | hcd | hud | hdd
    · exact model_level_of_mem_push_created_fields hcf
    · obtain ⟨f, _, rfl⟩ := of_mem_push_deleted_fields hdf
      rfl
    · exact model_level_of_mem_push_updated_fields huf
    · exact enum_level_of_mem_created_directives hcd
    · exact enum_level_of_mem_updated_directives hud
    · exact enum_level_of_mem_deleted_directives hdd

theorem mem_next_of_mem_createdBy {α : Type} {key : α → String} {previous next : List α}
    {x : α} (h : x ∈ createdBy key previous next) : x ∈ next := by
  rw [createdBy] at h
  exact List.mem_of_mem_filter h

theorem mem_previous_of_mem_deletedBy {α : Type} {key : α → String} {previous next : List α}
    {x : α} (h : x ∈ deletedBy key previous next) : x ∈ previous := by
  rw [deletedBy] at h
  exact List.mem_of_mem_filter h

theorem name_ne_default_of_mem_diff_directives {f : Field} {d : Directive}
    (h : d ∈ f.diff_directives) : d.name ≠ "default" := by
  rw [Field.diff_directives] at h
  simpa using (List.mem_filter.mp h).2

theorem no_default_directive_step_of_mem_push_updated_fields {model_name : String}
    {pairs : List (Field × Field)} {s : MigrationStep}
    (hs : s ∈ push_updated_fields model_name pairs) :
    s.directiveName ≠ some "default" := by
  obtain ⟨pr, _, hmem⟩ := of_mem_push_updated_fields hs
  rcases of_mem_push_updated_field hmem with ⟨_, rfl⟩ | hc | hu | hd
  · simp [MigrationStep.directiveName]
  · rcases of_mem_push_created_directives hc with ⟨d, hd2, rfl | ⟨a, _, rfl⟩⟩ <;>
      simpa [MigrationStep.directiveName] using
        name_ne_default_of_mem_diff_directives (mem_next_of_mem_createdBy hd2)
  · obtain ⟨dpr, hdpr, hmem2⟩ := of_mem_push_updated_directives hu
    have hne : dpr.1.name ≠ "default" :=
      name_ne_default_of_mem_diff_directives (fst_mem_of_mem_pairsBy hdpr)
    rcases of_mem_push_updated_directive hmem2 with ⟨a, rfl⟩ | ⟨a, rfl⟩ | ⟨a, rfl⟩ <;>
      simpa [MigrationStep.directiveName] using hne
  · obtain ⟨d, hd2, rfl⟩ := of_mem_push_deleted_directives hd
    simpa [MigrationStep.directiveName] using
      name_ne_default_of_mem_diff_directives (mem_previous_of_mem_deletedBy hd2)

theorem create_field_folds_default (model_name : String) {fields : List Field} {f : Field}
    (hf : f ∈ fields) :
    MigrationStep.CreateField
        { arity := f.arity, name := f.name, tpe := f.field_type, model := model_name,
          db_name := get_directive_string_value "map" f.directives,
          default := field_default f } ∈ push_created_fields model_name fields := by
  rw [push_created_fields]
  exact List.mem_flatMap.mpr ⟨f, hf, List.mem_cons_self _ _⟩

theorem default_change_single_update (model_name : String) (p n : Field) (v w : String)
    (hname : p.name = n.name) (harity : p.arity = n.arity)
    (htype : p.field_type = n.field_type)
    (hp : p.directives = [{ name := "default", arguments := [{ name := "", value := v }] }])
    (hn : n.directives = [{ name := "default", arguments := [{ name := "", value := w }] }])
    (hvw : v ≠ w) :
    push_updated_fields model_name [(p, n)] =
      [MigrationStep.UpdateField
        { arity := none, new_name := none, model := model_name, name := p.name, tpe := none,
          default := some (some { expr := w }) }] := by
  have hfd_p : field_default p = some { expr := v } := by
    rw [field_default, hp]
    rfl
  have hfd_n : field_default n = some { expr := w } := by
    rw [field_default, hn]
    rfl
  have hdd_p : p.diff_directives = [] := by
    rw [Field.diff_directives, hp]
    rfl
  have hdd_n : n.diff_directives = [] := by
    rw [Field.diff_directives, hn]
    rfl
  have hufs : update_field_step model_name p n =
      { arity := none, new_name := none, model := model_name, name := p.name, tpe := none,
        default := some (some { expr := w }) } := by
    rw [update_field_step, hfd_p, hfd_n, hname, harity, htype]
    simp [diff_value, MigrationExpression.mk.injEq, hvw]
  simp only [push_updated_fields, List.flatMap_cons, List.flatMap_nil, List.append_nil,
    push_updated_field, hufs, hdd_p, hdd_n]
  simp [UpdateField.is_any_option_set, createdBy, deletedBy, pairsBy,
    push_created_directives, push_updated_directives, push_deleted_directives]

/-! ### Ordering of the steps of one updated entity

The rank functions below classify each step a single updated model or enum
can emit, by content: created-field names and created-directive names are
read off the two sides of the pair, and pairing guarantees they are
disjoint from the names used by the updated-children steps. -/

theorem pairwise_rank_of_const {α : Type} {rank : α → Nat} {l : List α} {c : Nat}
    (h : ∀ s ∈ l, rank s = c) : l.Pairwise (fun s t => rank s ≤ rank t) := by
  induction l with
  | nil => exact List.Pairwise.nil
  | cons a t ih =>
    refine List.Pairwise.cons (fun b hb => ?_) (ih fun s hs => h s (List.mem_cons_of_mem a hs))
    rw [h a (List.mem_cons_self a t), h b (List.mem_cons_of_mem a hb)]

theorem pairwise_rank_chunk_cons {α : Type} {rank : α → Nat} {A B : List α} {c : Nat}
    (hA : ∀ a ∈ A, rank a = c)
    (hB : B.Pairwise (fun s t => rank s ≤ rank t)) (hBlb : ∀ b ∈ B, c ≤ rank b) :
    (A ++ B).Pairwise (fun s t => rank s ≤ rank t) ∧ ∀ x ∈ A ++ B, c ≤ rank x := by
  constructor
  · refine List.pairwise_append.mpr ⟨pairwise_rank_of_const hA, hB, ?_⟩
    intro a ha b hb
    rw [hA a ha]
    exact hBlb b hb
  · intro x hx
    rcases List.mem_append.mp hx with h | h
    · exact le_of_eq (hA x h).symm
    · exact hBlb x h

theorem rank_created_fields_chunk {p n : Model} {s : MigrationStep}
    (hs : s ∈ push_created_fields p.name (createdBy Field.name p.fields n.fields)) :
    model_child_rank p n s = 0 := by
  rcases of_mem_push_created_fields hs with ⟨f, hf, rfl | hdir⟩
  · rfl
  · have hfname : f.name ∈ (createdBy Field.name p.fields n.fields).map Field.name :=
      List.mem_map_of_mem Field.name hf
    rcases of_mem_push_created_directives hdir with ⟨d, _, rfl | ⟨a, _, rfl⟩⟩ <;>
      simp [model_child_rank, hfname]

theorem rank_deleted_fields_chunk {p n : Model} {s : MigrationStep}
    (hs : s ∈ push_deleted_fields p.name (deletedBy Field.name p.fields n.fields)) :
    model_child_rank p n s = 1 := by
  obtain ⟨f, _, rfl⟩ := of_mem_push_deleted_fields hs
  rfl

theorem rank_updated_fields_chunk {p n : Model} {s : MigrationStep}
    (hs : s ∈ push_updated_fields p.name (pairsBy Field.name p.fields n.fields)) :
    model_child_rank p n s = 2 := by
  obtain ⟨pr, hpr, hmem⟩ := of_mem_push_updated_fields hs
  have hnotin : pr.1.name ∉ (createdBy Field.name p.fields n.fields).map Field.name :=
    pairs_key_notin_created hpr
  rcases of_mem_push_updated_field hmem with ⟨_, rfl⟩ | hc | hu | hd
  · rfl
  · rcases of_mem_push_created_directives hc with ⟨d, _, rfl | ⟨a, _, rfl⟩⟩ <;>
      simp [model_child_rank, hnotin]
  · obtain ⟨dpr, _, hdpr⟩ := of_mem_push_updated_directives hu
    rcases of_mem_push_updated_directive hdpr with ⟨a, rfl⟩ | ⟨a, rfl⟩ | ⟨a, rfl⟩ <;>
      simp [model_child_rank, hnotin]
  · obtain ⟨d, _, rfl⟩ := of_mem_push_deleted_directives hd
    rfl

theorem rank_created_model_directives_chunk {p n : Model} {s : MigrationStep}
    (hs : s ∈ push_created_directives (DirectiveLocation.onModel p.name)
        (createdBy Directive.name p.directives n.directives)) :
    model_child_rank p n s = 3 := by
  rcases of_mem_push_created_directives hs with ⟨d, hd, rfl | ⟨a, _, rfl⟩⟩ <;>
    simp [model_child_rank, List.mem_map_of_mem Directive.name hd]

theorem rank_updated_model_directives_chunk {p n : Model} {s : MigrationStep}
    (hs : s ∈ push_updated_directives (DirectiveLocation.onModel p.name)
        (pairsBy Directive.name p.directives n.directives)) :
    model_child_rank p n s = 4 := by
  obtain ⟨pr, hpr, hmem⟩ := of_mem_push_updated_directives hs
  have hnotin : pr.1.name ∉
      (createdBy Directive.name p.directives n.directives).map Directive.name :=
    pairs_key_notin_created hpr
  rcases of_mem_push_updated_directive hmem with ⟨a, rfl⟩ | ⟨a, rfl⟩ | ⟨a, rfl⟩ <;>
    simp [model_child_rank, hnotin]

theorem rank_deleted_model_directives_chunk {p n : Model} {s : MigrationStep}
    (hs : s ∈ push_deleted_directives (DirectiveLocation.onModel p.name)
        (deletedBy Directive.name p.directives n.directives)) :
    model_child_rank p n s = 5 := by
  obtain ⟨d, _, rfl⟩ := of_mem_push_deleted_directives hs
  rfl

theorem push_updated_model_sorted (p n : Model) :
    (push_updated_model p n).Pairwise
      (fun s t => model_child_rank p n s ≤ model_child_rank p n t) := by
  have h1c : ∀ s ∈ push_created_fields p.name (createdBy Field.name p.fields n.fields),
      model_child_rank p n s = 0 := fun s hs => rank_created_fields_chunk hs
  have h2c : ∀ s ∈ push_deleted_fields p.name (deletedBy Field.name p.fields n.fields),
      model_child_rank p n s = 1 := fun s hs => rank_deleted_fields_chunk hs
  have h3c : ∀ s ∈ push_updated_fields p.name (pairsBy Field.name p.fields n.fields),
      model_child_rank p n s = 2 := fun s hs => rank_updated_fields_chunk hs
  have h4c : ∀ s ∈ push_created_directives (DirectiveLocation.onModel p.name)
        (createdBy Directive.name p.directives n.directives),
      model_child_rank p n s = 3 := fun s hs => rank_created_model_directives_chunk hs
  have h5c : ∀ s ∈ push_updated_directives (DirectiveLocation.onModel p.name)
        (pairsBy Directive.name p.directives n.directives),
      model_child_rank p n s = 4 := fun s hs => rank_updated_model_directives_chunk hs
  have h6c : ∀ s ∈ push_deleted_directives (DirectiveLocation.onModel p.name)
        (deletedBy Directive.name p.directives n.directives),
      model_child_rank p n s = 5 := fun s hs => rank_deleted_model_directives_chunk hs
  have s5 := pairwise_rank_chunk_cons h5c (pairwise_rank_of_const h6c)
    (fun b hb => by rw [h6c b hb]; omega)
  have s4 := pairwise_rank_chunk_cons h4c s5.1 (fun b hb => le_trans (by omega) (s5.2 b hb))
  have s3 := pairwise_rank_chunk_cons h3c s4.1 (fun b hb => le_trans (by omega) (s4.2 b hb))
  have s2 := pairwise_rank_chunk_cons h2c s3.1 (fun b hb => le_trans (by omega) (s3.2 b hb))
  have s1 := pairwise_rank_chunk_cons h1c s2.1 (fun b hb => le_trans (by omega) (s2.2 b hb))
  simpa only [push_updated_model, List.append_assoc] using s1.1

theorem rank_update_enum_chunk {p n : Enum} {s : MigrationStep}
    (hs : s ∈ (if (update_enum_step p n).is_any_option_set
        then [MigrationStep.UpdateEnum (update_enum_step p n)] else [])) :
    enum_child_rank p n s = 0 := by
  by_cases h : (update_enum_step p n).is_any_option_set = true
  · rw [if_pos h] at hs
    rcases List.mem_singleton.mp hs with rfl
    rfl
  · rw [if_neg h] at hs
    cases hs

theorem rank_created_enum_directives_chunk {p n : Enum} {s : MigrationStep}
    (hs : s ∈ push_created_directives (DirectiveLocation.onEnum p.name)
        (createdBy Directive.name p.directives n.directives)) :
    enum_child_rank p n s = 1 := by
  rcases of_mem_push_created_directives hs with ⟨d, hd, rfl | ⟨a, _, rfl⟩⟩ <;>
    simp [enum_child_rank, List.mem_map_of_mem Directive.name hd]

theorem rank_updated_enum_directives_chunk {p n : Enum} {s : MigrationStep}
    (hs : s ∈ push_updated_directives (DirectiveLocation.onEnum p.name)
        (pairsBy Directive.name p.directives n.directives)) :
    enum_child_rank p n s = 2 := by
  obtain ⟨pr, hpr, hmem⟩ := of_mem_push_updated_directives hs
  have hnotin : pr.1.name ∉
      (createdBy Directive.name p.directives n.directives).map Directive.name :=
    pairs_key_notin_created hpr
  rcases of_mem_push_updated_directive hmem with ⟨a, rfl⟩ | ⟨a, rfl⟩ | ⟨a, rfl⟩ <;>
    simp [enum_child_rank, hnotin]

theorem rank_deleted_enum_directives_chunk {p n : Enum} {s : MigrationStep}
    (hs : s ∈ push_deleted_directives (DirectiveLocation.onEnum p.name)
        (deletedBy Directive.name p.directives n.directives)) :
    enum_child_rank p n s = 3 := by
  obtain ⟨d, _, rfl⟩ := of_mem_push_deleted_directives hs
  rfl

theorem push_updated_enum_sorted (p n : Enum) :
    (push_updated_enum p n).Pairwise
      (fun s t => enum_child_rank p n s ≤ enum_child_rank p n t) := by
  have h1c : ∀ s ∈ (if (update_enum_step p n).is_any_option_set
        then [MigrationStep.UpdateEnum (update_enum_step p n)] else []),
      enum_child_rank p n s = 0 := fun s hs => rank_update_enum_chunk hs
  have h2c : ∀ s ∈ push_created_directives (DirectiveLocation.onEnum p.name)
        (createdBy Directive.name p.directives n.directives),
      enum_child_rank p n s = 1 := fun s hs => rank_created_enum_directives_chunk hs
  have h3c : ∀ s ∈ push_updated_directives (DirectiveLocation.onEnum p.name)
        (pairsBy Directive.name p.directives n.directives),
      enum_child_rank p n s = 2 := fun s hs => rank_updated_enum_directives_chunk hs
  have h4c : ∀ s ∈ push_deleted_directives (DirectiveLocation.onEnum p.name)
        (deletedBy Directive.name p.directives n.directives),
      enum_child_rank p n s = 3 := fun s hs => rank_deleted_enum_directives_chunk hs
  have s3 := pairwise_rank_chunk_cons h3c (pairwise_rank_of_const h4c)
    (fun b hb => by rw [h4c b hb]; omega)
  have s2 := pairwise_rank_chunk_cons h2c s3.1 (fun b hb => le_trans (by omega) (s3.2 b hb))
  have s1 := pairwise_rank_chunk_cons h1c s2.1 (fun b hb => le_trans (by omega) (s2.2 b hb))
  simpa only [push_updated_enum, List.append_assoc] using s1.1

theorem validate_errors_of_mismatch {database_str provider : String}
    (h : ¬ provider_matches_scheme provider (schemeOf database_str)) :
    validate_database_str database_str provider =
      Except.error { kind := ErrorKind.InvalidDatabaseUrl, user_facing_error := none } := by
  obtain ⟨sc, hsc⟩ : ∃ sc, schemeOf database_str = some sc := ⟨_, rfl⟩
  rw [provider_matches_scheme, hsc] at h
  rw [validate_database_str, hsc]
  dsimp only
  split_ifs with h1 h2 h3
  · exact absurd (Or.inl ⟨h1.1, by rw [h1.2]⟩) h
  · exact absurd (Or.inr (Or.inl ⟨h2.1, by simpa using h2.2⟩)) h
  · refine absurd (Or.inr (Or.inr ⟨h3.1, ?_⟩)) h
    rcases h3.2 with he | he
    · exact Or.inl (by rw [he])
    · exact Or.inr (by rw [he])
  · rfl

/-! ### Database state lemmas -/

theorem mpi_schemas (db : DatabaseState) :
    (migration_persistence_init db).schemas = db.schemas := by
  rw [migration_persistence_init]
  split_ifs <;> rfl

theorem mpi_directories (db : DatabaseState) :
    (migration_persistence_init db).directories = db.directories := by
  rw [migration_persistence_init]
  split_ifs <;> rfl

theorem mpi_idem (db : DatabaseState) :
    migration_persistence_init (migration_persistence_init db) =
      migration_persistence_init db := by
  rw [migration_persistence_init, migration_persistence_init]
  split_ifs with h1 h2 <;> simp_all [migration_persistence_init]

theorem csine_mem (name : String) (db : DatabaseState) :
    name ∈ (create_schema_if_not_exists name db).schemas := by
  rw [create_schema_if_not_exists]
  split_ifs with h
  · exact h
  · exact List.mem_cons_self name db.schemas

theorem csine_of_mem {name : String} {db : DatabaseState} (h : name ∈ db.schemas) :
    create_schema_if_not_exists name db = db := by
  rw [create_schema_if_not_exists, if_pos h]

theorem cda_mem (path : String) (db : DatabaseState) :
    path ∈ (create_dir_all path db).directories := by
  rw [create_dir_all]
  split_ifs with h
  · exact h
  · exact List.mem_cons_self path db.directories

theorem cda_of_mem {path : String} {db : DatabaseState} (h : path ∈ db.directories) :
    create_dir_all path db = db := by
  rw [create_dir_all, if_pos h]

/-- C1: for every schema AST A whose names are unique within each scope
(top-level declarations, fields per model, directives per entity, arguments
per directive), diff of A against itself returns the empty step list. -/
theorem C1_diff_self_of_wf (A : SchemaAst) (h : A.wf) : diff A A = [] :=
  diff_self h

/-- C1 counterexample: a schema holding two enums of the same name diffs
against itself to a nonempty step list, so the claim fails without the
uniqueness restriction. -/
theorem C1_counterexample : diff dupEnumAst dupEnumAst ≠ [] := by decide

/-- C1 witness: the amended theorem applied at a concrete well-formed
schema. -/
theorem C1_witness : SchemaAst.wf exampleAst ∧ diff exampleAst exampleAst = [] :=
  ⟨by decide, C1_diff_self_of_wf exampleAst (by decide)⟩

/-- C4: every Update step in a diff output records a change (an UpdateEnum
or UpdateField step appears only with at least one optional part set), and
a paired directive argument with equal previous and next values produces no
Update step at all. -/
theorem C4_no_empty_update_steps :
    (∀ previous next : SchemaAst, ∀ s ∈ diff previous next, s.records_a_change = true) ∧
      ∀ (locator : DirectiveLocator) (previous_argument next_argument : Argument),
        previous_argument.value = next_argument.value →
        push_updated_directive_argument locator previous_argument next_argument = [] := by
  constructor
  · intro previous next s hs
    exact records_of_mem_diff hs
  · intro locator a b h
    simp [push_updated_directive_argument, MigrationExpression.from_ast_expression, h]

/-- C4 witness: the theorem applied to the UpdateField step of a concrete
default change and to a concrete unchanged directive argument. -/
theorem C4_witness :
    MigrationStep.records_a_change (MigrationStep.UpdateField
        { arity := none, new_name := none, model := "User", name := "age", tpe := none,
          default := some (some { expr := "2" }) }) = true ∧
      push_updated_directive_argument
        { location := DirectiveLocation.onModel "User", name := "map" }
        { name := "", value := "users" } { name := "", value := "users" } = [] :=
  ⟨C4_no_empty_update_steps.1 (astAge "1") (astAge "2") _ (by decide),
   C4_no_empty_update_steps.2 _ _ _ rfl⟩

/-- C2 (amended): diff folds the first argument of the default
directive into the owning CreateField and UpdateField steps, and for an
updated (paired) field no directive-level step is emitted for the default
directive, so a pure default change yields exactly one UpdateField step
carrying the new default; for a created field, however, the default
directive is additionally emitted as an independent CreateDirective step
with its argument. -/
theorem C2_default_folding :
    (∀ (model_name : String) (fields : List Field), ∀ f ∈ fields,
        MigrationStep.CreateField
            { arity := f.arity, name := f.name, tpe := f.field_type, model := model_name,
              db_name := get_directive_string_value "map" f.directives,
              default := field_default f } ∈ push_created_fields model_name fields) ∧
      (∀ (model_name : String) (pairs : List (Field × Field)),
        ∀ s ∈ push_updated_fields model_name pairs,
          s.directiveName ≠ some "default") ∧
      ∀ (model_name : String) (p n : Field) (v w : String),
        p.name = n.name → p.arity = n.arity → p.field_type = n.field_type →
        p.directives = [{ name := "default", arguments := [{ name := "", value := v }] }] →
        n.directives = [{ name := "default", arguments := [{ name := "", value := w }] }] →
        v ≠ w →
        push_updated_fields model_name [(p, n)] =
          [MigrationStep.UpdateField
            { arity := none, new_name := none, model := model_name, name := p.name, tpe := none,
              default := some (some { expr := w }) }] :=
  ⟨fun model_name _ _ hf => create_field_folds_default model_name hf,
   fun _ _ _ hs => no_default_directive_step_of_mem_push_updated_fields hs,
   fun model_name p n v w h1 h2 h3 h4 h5 h6 =>
     default_change_single_update model_name p n v w h1 h2 h3 h4 h5 h6⟩

/-- C2 counterexample: diff of a model gaining a field carrying a default
directive emits an independent CreateDirective step for that default
directive, alongside the CreateField step that already carries the folded
default. -/
theorem C2_counterexample :
    MigrationStep.CreateDirective
        { locator := { location := DirectiveLocation.onField "User" "age",
                       name := "default" } } ∈
      diff astUserEmpty (astAge "1") := by decide

/-- C2 witness: the amended theorem applied at a concrete created field
with a default and at a concrete default change from 1 to 2. -/
theorem C2_witness :
    MigrationStep.CreateField
        { arity := FieldArity.required, name := "age", tpe := "Int", model := "User",
          db_name := none, default := some { expr := "1" } } ∈
      push_created_fields "User" [fieldAgeDefault "1"] ∧
      MigrationStep.directiveName (MigrationStep.UpdateField
          { arity := none, new_name := none, model := "User", name := "age", tpe := none,
            default := some (some { expr := "2" }) }) ≠ some "default" ∧
      push_updated_fields "User" [(fieldAgeDefault "1", fieldAgeDefault "2")] =
        [MigrationStep.UpdateField
          { arity := none, new_name := none, model := "User", name := "age", tpe := none,
            default := some (some { expr := "2" }) }] :=
  ⟨C2_default_folding.1 "User" [fieldAgeDefault "1"] (fieldAgeDefault "1") (by decide),
   C2_default_folding.2.1 "User" [(fieldAgeDefault "1", fieldAgeDefault "2")] _ (by decide),
   C2_default_folding.2.2 "User" (fieldAgeDefault "1") (fieldAgeDefault "2") "1" "2"
     rfl rfl rfl rfl rfl (by decide)⟩

/-- C3 (amended): for every model pair that diff classifies as updated, the
steps emitted for it are ordered: steps of created fields first, then
deleted fields, then steps of updated fields, then created, updated and
deleted model-level directives; for every updated enum the UpdateEnum step
comes first, then created, updated and deleted enum-level directives. So
among directive children created precede updated precede deleted, while
among field children deleted precede updated. -/
theorem C3_updated_children_order :
    (∀ previous next : SchemaAst, ∀ pr ∈ pairsBy Model.name previous.models next.models,
        (push_updated_model pr.1 pr.2).Pairwise
          (fun s t => model_child_rank pr.1 pr.2 s ≤ model_child_rank pr.1 pr.2 t)) ∧
      ∀ previous next : SchemaAst, ∀ pr ∈ pairsBy Enum.name previous.enums next.enums,
        (push_updated_enum pr.1 pr.2).Pairwise
          (fun s t => enum_child_rank pr.1 pr.2 s ≤ enum_child_rank pr.1 pr.2 t) :=
  ⟨fun _ _ pr _ => push_updated_model_sorted pr.1 pr.2,
   fun _ _ pr _ => push_updated_enum_sorted pr.1 pr.2⟩

/-- C3 counterexample: in an updated model where field b is deleted and
field a is retyped, the DeleteField step precedes the UpdateField step, so
the claimed created-updated-deleted ordering of the children fails. -/
theorem C3_counterexample :
    (c3ModelPrev, c3ModelNext) ∈ pairsBy Model.name c3Prev.models c3Next.models ∧
      push_updated_model c3ModelPrev c3ModelNext =
        [MigrationStep.DeleteField { model := "M", name := "b" },
         MigrationStep.UpdateField
           { arity := none, new_name := none, model := "M", name := "a",
             tpe := some "String", default := none }] ∧
      ¬ (push_updated_model c3ModelPrev c3ModelNext).Pairwise
          (fun s t => claim_child_rank c3ModelPrev c3ModelNext s ≤
            claim_child_rank c3ModelPrev c3ModelNext t) := by
  refine ⟨by decide, by decide, ?_⟩
  decide

/-- C3 witness: the amended ordering theorem applied at a concrete updated
model pair and a concrete updated enum pair. -/
theorem C3_witness :
    (push_updated_model c3ModelPrev c3ModelNext).Pairwise
        (fun s t => model_child_rank c3ModelPrev c3ModelNext s ≤
          model_child_rank c3ModelPrev c3ModelNext t) ∧
      (push_updated_enum colorPrevEnum colorNextEnum).Pairwise
        (fun s t => enum_child_rank colorPrevEnum colorNextEnum s ≤
          enum_child_rank colorPrevEnum colorNextEnum t) :=
  ⟨C3_updated_children_order.1 c3Prev c3Next (c3ModelPrev, c3ModelNext) (by decide),
   C3_updated_children_order.2 astColorPrev astColorNext (colorPrevEnum, colorNextEnum)
     (by decide)⟩

/-- C6: when the descriptor scheme does not match the declared engine
family, connector construction fails with the invalid-connection-descriptor
error kind (ErrorKind.InvalidDatabaseUrl of the source), and it does so for
every behavior of the external connection layers: the failure precedes any
connection attempt. -/
theorem C6_scheme_mismatch_fails_before_connecting (database_str provider : String)
    (h : ¬ provider_matches_scheme provider (schemeOf database_str)) :
    ∀ env : ConnectionEnv,
      SqlMigrationConnector.new database_str provider env =
        Except.error { kind := ErrorKind.InvalidDatabaseUrl, user_facing_error := none } := by
  intro env
  unfold SqlMigrationConnector.new
  rw [validate_errors_of_mismatch h]
  rfl

/-- C6 witness: a postgres descriptor with declared family mysql fails with
the invalid-descriptor kind in an environment where every connection layer
would succeed. -/
theorem C6_witness :
    ¬ provider_matches_scheme "mysql" (schemeOf "postgres://localhost:5432/db") ∧
      SqlMigrationConnector.new "postgres://localhost:5432/db" "mysql" envReady =
        Except.error { kind := ErrorKind.InvalidDatabaseUrl, user_facing_error := none } :=
  ⟨by decide, C6_scheme_mismatch_fails_before_connecting "postgres://localhost:5432/db" "mysql"
    (by decide) envReady⟩

/-- C7: a second initialize against the state produced by a first
initialize succeeds and leaves the state unchanged: no duplicate
schema-creation side effect. -/
theorem C7_initialize_idempotent (connector : SqlMigrationConnector) (db db1 : DatabaseState)
    (h : initialize_connector connector db = Except.ok db1) :
    initialize_connector connector db1 = Except.ok db1 := by
  rw [initialize_connector] at h
  obtain rfl : db1 = migration_persistence_init
      (initialize_impl connector.database_info connector.schema_name db) :=
    (Except.ok.inj h).symm
  rw [initialize_connector]
  cases hci : connector.database_info with
  | mysqlInfo s =>
    simp only [initialize_impl]
    rw [csine_of_mem (by rw [mpi_schemas]; exact csine_mem _ _), mpi_idem]
  | postgresInfo s =>
    simp only [initialize_impl]
    rw [csine_of_mem (by rw [mpi_schemas]; exact csine_mem _ _), mpi_idem]
  | sqliteInfo fp pd s =>
    cases pd with
    | none =>
      simp only [initialize_impl]
      rw [mpi_idem]
    | some parent =>
      simp only [initialize_impl]
      rw [cda_of_mem (by rw [mpi_directories]; exact cda_mem _ _), mpi_idem]

/-- C7 witness: the theorem applied to a concrete postgres connector and a
fresh database state. -/
theorem C7_witness :
    initialize_connector
        { schema_name := "public", database_info := ConnectionInfo.postgresInfo "public" }
        { schemas := ["public"], directories := [], migration_table_present := true } =
      Except.ok { schemas := ["public"], directories := [], migration_table_present := true } :=
  C7_initialize_idempotent
    { schema_name := "public", database_info := ConnectionInfo.postgresInfo "public" }
    { schemas := [], directories := [], migration_table_present := false }
    { schemas := ["public"], directories := [], migration_table_present := true }
    rfl

/-- C8: the connection timeout constant is 10 seconds; when the connection
open plus its probe query takes longer, construction fails with the
distinguished ConnectTimeout kind, which differs from every other failure
kind. -/
theorem C8_connect_timeout :
    CONNECTION_TIMEOUT = 10 ∧
      (∀ (database_str provider : String) (env : ConnectionEnv),
        validate_database_str database_str provider = Except.ok () →
        (∃ info, env.from_url = Except.ok info) →
        CONNECTION_TIMEOUT < env.connect_secs →
        SqlMigrationConnector.new database_str provider env =
          Except.error { kind := ErrorKind.ConnectTimeout, user_facing_error := none }) ∧
      (ErrorKind.ConnectTimeout ≠ ErrorKind.GenericConnectionError ∧
        ErrorKind.ConnectTimeout ≠ ErrorKind.QueryError ∧
        ErrorKind.ConnectTimeout ≠ ErrorKind.UrlParseError ∧
        ErrorKind.ConnectTimeout ≠ ErrorKind.InvalidDatabaseUrl) := by
  refine ⟨rfl, ?_, by decide⟩
  rintro database_str provider env hval ⟨info, hurl⟩ htime
  unfold SqlMigrationConnector.new
  rw [hval, hurl, if_pos htime]
  rfl

/-- C8 witness: the timeout part applied to a valid mysql descriptor in an
environment taking 11 seconds. -/
theorem C8_witness :
    validate_database_str "mysql://root@localhost/mydb" "mysql" = Except.ok () ∧
      CONNECTION_TIMEOUT < envSlow.connect_secs ∧
      SqlMigrationConnector.new "mysql://root@localhost/mydb" "mysql" envSlow =
        Except.error { kind := ErrorKind.ConnectTimeout, user_facing_error := none } :=
  ⟨rfl, by decide,
   C8_connect_timeout.2.1 "mysql://root@localhost/mydb" "mysql" envSlow rfl
     ⟨ConnectionInfo.mysqlInfo "mydb", rfl⟩ (by decide)⟩

/-- C9: whenever InferMigrationStepsCommand execute succeeds, the output
carries empty errors, warnings and general error lists, and the result does
not depend on the destructive changes checker at all. -/
theorem C9_infer_steps_no_errors :
    (∀ (δ μ : Type) (engine : MigrationEngine δ μ) (input : InferMigrationStepsInput)
        (out : MigrationStepsResultOutput),
        InferMigrationStepsCommand.execute engine input = Except.ok out →
        out.errors = [] ∧ out.warnings = [] ∧ out.general_errors = []) ∧
      ∀ (δ μ : Type) (engine : MigrationEngine δ μ) (checker : μ → List String)
        (input : InferMigrationStepsInput),
        InferMigrationStepsCommand.execute { engine with destructive_check := checker } input =
          InferMigrationStepsCommand.execute engine input := by
  constructor
  · intro δ μ engine input out h
    rw [InferMigrationStepsCommand.execute] at h
    cases hp : engine.parse input.data_model with
    | error e =>
      rw [hp] at h
      exact Except.noConfusion h
    | ok next_data_model =>
      rw [hp] at h
      rw [← Except.ok.inj h]
      exact ⟨rfl, rfl, rfl⟩
  · intro δ μ engine checker input
    rfl

/-- C9 witness: the theorem applied to a trivial engine and input. -/
theorem C9_witness : outW.errors = [] ∧ outW.warnings = [] ∧ outW.general_errors = [] :=
  C9_infer_steps_no_errors.1 Unit Unit engineUnit inputW outW rfl

/-- C10: deserialize of a database migration panics exactly when the serde
decoding fails, and returns a migration exactly when it succeeds; the
panicking branch is reachable, for example on a plain string value. -/
theorem C10_deserialize_panics_on_invalid :
    (∀ json : Json, sql_migration_from_value json = none →
        deserialize_database_migration json =
          PanicOr.panicked "Deserializing the database migration failed.") ∧
      (∀ (json : Json) (m : SqlMigration),
        deserialize_database_migration json = PanicOr.returned m →
        sql_migration_from_value json = some m) ∧
      sql_migration_from_value (Json.str "not a migration") = none := by
  refine ⟨?_, ?_, rfl⟩
  · intro json h
    rw [deserialize_database_migration, h]
  · intro json m h
    rw [deserialize_database_migration] at h
    cases hv : sql_migration_from_value json with
    | none =>
      rw [hv] at h
      exact PanicOr.noConfusion h
    | some migration =>
      rw [hv] at h
      exact congrArg some (PanicOr.returned.inj h)

/-- C10 witness: the theorem applied at a concrete invalid JSON value and a
concrete valid payload. -/
theorem C10_witness :
    deserialize_database_migration (Json.str "not a migration") =
        PanicOr.panicked "Deserializing the database migration failed." ∧
      sql_migration_from_value (Json.obj [("steps", Json.arr [Json.str "CreateTable"])]) =
        some { steps := ["CreateTable"] } :=
  ⟨C10_deserialize_panics_on_invalid.1 (Json.str "not a migration") rfl,
   C10_deserialize_panics_on_invalid.2.1 (Json.obj [("steps", Json.arr [Json.str "CreateTable"])])
     { steps := ["CreateTable"] } rfl⟩

/-- C5: in every diff output all enum-level steps (enum steps and directive
steps located on enums) precede all model-level steps: the list equals its
enum-level part followed by its model-level part. -/
theorem C5_enum_steps_precede_model_steps (previous next : SchemaAst) :
    diff previous next =
      (diff previous next).filter MigrationStep.is_enum_level ++
        (diff previous next).filter (fun s => !(s.is_enum_level)) := by
  have hE : ∀ s ∈ push_enums previous next, s.is_enum_level = true :=
    fun s hs => enum_level_of_mem_push_enums hs
  have hM : ∀ s ∈ push_models previous next, s.is_enum_level = false :=
    fun s hs => model_level_of_mem_push_models hs
  rw [diff, List.filter_append, List.filter_append]
  rw [List.filter_eq_self.mpr hE]
  rw [List.filter_eq_nil_iff.mpr (fun s hs => by simp [hM s hs])]
  rw [List.filter_eq_nil_iff.mpr (fun s hs => by simp [hE s hs])]
  rw [List.filter_eq_self.mpr (fun s hs => by simp [hM s hs])]
  simp

end Prisma
